import Mathlib

/-!
# Verification of the nt-hive registry-hive parsing library

This file gives a shallow embedding, in Lean 4, of the core of the nt-hive
library (parsing of Windows NT registry hive files) and proves properties of
that embedding.

Conventions of the embedding:
* A byte buffer is a `List Nat`; every read goes through `byteAt`, which
  reduces modulo 256, so all multi-byte reads are bounded like the machine
  integers they model.
* Rust `Range<usize>` becomes `ByteRange` with `start`/`stop` in `Nat`;
  `usize` arithmetic that cannot overflow for real buffers is modelled with
  plain `Nat` arithmetic (checked additions in the source can only fail past
  `2 ^ 64`, where the bound checks against the buffer length fail as well).
* Fallible Rust functions returning `Result<T, NtHiveError>` become
  `Except NtHiveError T`.
* A Rust function that can panic (an `assert!` or `.unwrap()` reachable on
  some input) additionally gets an instrumented variant returning
  `Option (...)`, where `none` marks the panic.
-/

namespace NtHive

/-- Mirror of Rust `Range<usize>`: a half-open byte range `start ≤ i < stop`. -/
structure ByteRange where
  start : Nat
  stop : Nat
deriving DecidableEq, Repr

/-- Rust `Range::len`: `end - start` (0 when the range is degenerate). -/
def ByteRange.len (r : ByteRange) : Nat := r.stop - r.start

/-- Embedding of `helpers::byte_subrange`: a length-`byteCount` subrange at the
start of `range`, or `none` when it would extend past `range.stop`. The
`checked_add` of the source can only fail beyond `usize::MAX`, in which case
the bound check fails too, so plain `Nat` addition is faithful. -/
def byte_subrange (range : ByteRange) (byteCount : Nat) : Option ByteRange :=
  let subrangeEnd := range.start + byteCount
  if subrangeEnd ≤ range.stop then some ⟨range.start, subrangeEnd⟩ else none

/-- Read one byte of a buffer (out-of-range positions read as 0; every read in
the embedding is guarded by a range check first, as in the source). -/
def byteAt (data : List Nat) (i : Nat) : Nat := data.getD i 0 % 256

/-- Little-endian `u16` read. -/
def readU16 (data : List Nat) (i : Nat) : Nat :=
  byteAt data i + 256 * byteAt data (i + 1)

/-- Little-endian `u32` read. -/
def readU32 (data : List Nat) (i : Nat) : Nat :=
  byteAt data i + 256 * byteAt data (i + 1) + 65536 * byteAt data (i + 2) +
    16777216 * byteAt data (i + 3)

/-- Little-endian `i32` read (two's complement). -/
def readI32 (data : List Nat) (i : Nat) : Int :=
  let u := readU32 data i
  if u < 2147483648 then (u : Int) else (u : Int) - 4294967296

/-- The bytes of `data` covered by `r` (Rust `&data[r]`; all uses in the
embedding are guarded by the same bound checks as the source). -/
def sliceRange (data : List Nat) (r : ByteRange) : List Nat :=
  (data.drop r.start).take (r.stop - r.start)

/-- Mirror of `KeyValueDataType`. -/
inductive KeyValueDataType where
  | RegNone
  | RegSZ
  | RegExpandSZ
  | RegBinary
  | RegDWord
  | RegDWordBigEndian
  | RegLink
  | RegMultiSZ
  | RegResourceList
  | RegFullResourceDescriptor
  | RegResourceRequirementsList
  | RegQWord
deriving DecidableEq, Repr

/-- Mirror of `KeyValueDataType::n` (the `enumn` derive): decode a `u32`. -/
def KeyValueDataType.n (v : Nat) : Option KeyValueDataType :=
  match v with
  | 0 => some .RegNone
  | 1 => some .RegSZ
  | 2 => some .RegExpandSZ
  | 3 => some .RegBinary
  | 4 => some .RegDWord
  | 5 => some .RegDWordBigEndian
  | 6 => some .RegLink
  | 7 => some .RegMultiSZ
  | 8 => some .RegResourceList
  | 9 => some .RegFullResourceDescriptor
  | 10 => some .RegResourceRequirementsList
  | 11 => some .RegQWord
  | _ => none

/-- Mirror of `NtHiveError` (payloads kept as numbers / byte lists). -/
inductive NtHiveError where
  | InvalidChecksum (expected actual : Nat)
  | InvalidDataSize (offset expected actual : Nat)
  | InvalidFourByteSignature (offset : Nat) (expected actual : List Nat)
  | InvalidHeaderSize (offset expected actual : Nat)
  | InvalidKeyValueDataType (expected : List KeyValueDataType)
      (actual : KeyValueDataType)
  | InvalidSizeField (offset expected actual : Nat)
  | InvalidSizeFieldAlignment (offset size expectedAlignment : Nat)
  | InvalidTwoByteSignature (offset : Nat) (expected actual : List Nat)
  | SequenceNumberMismatch (primary secondary : Nat)
  | UnallocatedCell (offset : Nat) (size : Int)
  | UnsupportedClusteringFactor (expected actual : Nat)
  | UnsupportedFileFormat (expected actual : Nat)
  | UnsupportedFileType (expected actual : Nat)
  | UnsupportedKeyValueDataType (offset actual : Nat)
  | UnsupportedVersion (major minor : Nat)
deriving DecidableEq, Repr

instance {ε α : Type} [DecidableEq ε] [DecidableEq α] :
    DecidableEq (Except ε α) := fun a b =>
  match a, b with
  | .ok x, .ok y =>
    if h : x = y then isTrue (by rw [h]) else isFalse (by simp [h])
  | .error x, .error y =>
    if h : x = y then isTrue (by rw [h]) else isFalse (by simp [h])
  | .ok _, .error _ => isFalse (by simp)
  | .error _, .ok _ => isFalse (by simp)

/-- Size of the base block, `mem::size_of::<HiveBaseBlock>()`. -/
def baseBlockSize : Nat := 4096

/-- `Hive::offset_of_data_offset`: absolute file offset of a cell-area
position. -/
def offset_of_data_offset (dataOffset : Nat) : Nat := dataOffset + baseBlockSize

/-- Embedding of `Hive::cell_range_from_data_offset` over the cell area
`data` (the bytes following the base block).  The source starts with
`assert!(data_offset != u32::MAX)`; the steps below do not depend on that
assertion, and the panic it causes is modelled separately by
`cellRangeFromDataOffsetP`. -/
def cellRangeFromDataOffset (data : List Nat) (dataOffset : Nat) :
    Except NtHiveError ByteRange :=
  let remainingRange : ByteRange := ⟨dataOffset, data.length⟩
  match byte_subrange remainingRange 4 with
  | none =>
    .error (.InvalidHeaderSize (offset_of_data_offset dataOffset) 4
      remainingRange.len)
  | some headerRange =>
    let cellDataOffset := headerRange.stop
    let cellSize := readI32 data dataOffset
    if 0 < cellSize then
      .error (.UnallocatedCell (offset_of_data_offset dataOffset) cellSize)
    else
      let cellSizeAbs := cellSize.natAbs
      if cellSizeAbs % 8 ≠ 0 then
        .error (.InvalidSizeFieldAlignment (baseBlockSize + dataOffset)
          cellSizeAbs 8)
      else
        let remainingRange2 : ByteRange := ⟨cellDataOffset, data.length⟩
        match byte_subrange remainingRange2 cellSizeAbs with
        | none =>
          .error (.InvalidSizeField (baseBlockSize + dataOffset) cellSizeAbs
            remainingRange2.len)
        | some cellDataRange => .ok cellDataRange

/-- Panic-instrumented `Hive::cell_range_from_data_offset`: the source
asserts `data_offset != u32::MAX`; `none` models that panic. -/
def cellRangeFromDataOffsetP (data : List Nat) (dataOffset : Nat) :
    Option (Except NtHiveError ByteRange) :=
  if dataOffset = 4294967295 then none
  else some (cellRangeFromDataOffset data dataOffset)

/-- Boolean success test for `Except`. -/
def exceptIsOk {ε α : Type} : Except ε α → Bool
  | .ok _ => true
  | .error _ => false

/-- Cell area of 12 bytes whose cell at offset 0 has size field `-8`:
allocated, size 8 (including the 4-byte size field), body bytes 4..12. -/
def cellAreaMinus8 : List Nat := [248, 255, 255, 255, 0, 0, 0, 0, 0, 0, 0, 0]

/-- Cell area of 4 bytes whose cell at offset 0 has size field `0`. -/
def cellAreaZeroSize : List Nat := [0, 0, 0, 0]

/-- Mirror of `Hive`: the input buffer split into the 4096-byte base block
and the cell area. -/
structure Hive where
  baseBlock : List Nat
  data : List Nat
deriving DecidableEq, Repr

/-- The bytes `b"regf"`. -/
def regfSignature : List Nat := [114, 101, 103, 102]

/-- The four signature bytes of a base block. -/
def hiveSignature (bb : List Nat) : List Nat :=
  [byteAt bb 0, byteAt bb 1, byteAt bb 2, byteAt bb 3]

/-- Embedding of `Hive::without_validation`: split the buffer into base block
and cell area, failing when fewer than 4096 bytes are available
(`LayoutVerified::new_from_prefix` returning `None`). -/
def Hive.withoutValidation (bytes : List Nat) : Except NtHiveError Hive :=
  if baseBlockSize ≤ bytes.length then
    .ok ⟨bytes.take baseBlockSize, bytes.drop baseBlockSize⟩
  else .error (.InvalidHeaderSize 0 baseBlockSize bytes.length)

/-- Embedding of `Hive::validate_sequence_numbers`. -/
def Hive.validateSequenceNumbers (h : Hive) : Except NtHiveError Unit :=
  if readU32 h.baseBlock 4 = readU32 h.baseBlock 8 then .ok ()
  else .error (.SequenceNumberMismatch (readU32 h.baseBlock 4)
    (readU32 h.baseBlock 8))

/-- Embedding of `Hive::validate_version`: major 1 and minor at least 3
(`HiveMinorVersion::WindowsNT4`). -/
def Hive.validateVersion (h : Hive) : Except NtHiveError Unit :=
  if readU32 h.baseBlock 20 = 1 ∧ 3 ≤ readU32 h.baseBlock 24 then .ok ()
  else .error (.UnsupportedVersion (readU32 h.baseBlock 20)
    (readU32 h.baseBlock 24))

/-- Embedding of `Hive::validate_file_type`: file type 0
(`HiveFileTypes::Primary`). -/
def Hive.validateFileType (h : Hive) : Except NtHiveError Unit :=
  if readU32 h.baseBlock 28 = 0 then .ok ()
  else .error (.UnsupportedFileType 0 (readU32 h.baseBlock 28))

/-- Embedding of `Hive::validate_file_format`: file format 1
(`HiveFileFormats::Memory`). -/
def Hive.validateFileFormat (h : Hive) : Except NtHiveError Unit :=
  if readU32 h.baseBlock 32 = 1 then .ok ()
  else .error (.UnsupportedFileFormat 1 (readU32 h.baseBlock 32))

/-- Embedding of `Hive::validate_data_size`: the data size (base-block field
at offset 40) must be a multiple of 4096 and must not exceed the cell-area
length. -/
def Hive.validateDataSize (h : Hive) : Except NtHiveError Unit :=
  if readU32 h.baseBlock 40 % 4096 ≠ 0 then
    .error (.InvalidSizeFieldAlignment 40 (readU32 h.baseBlock 40) 4096)
  else if h.data.length < readU32 h.baseBlock 40 then
    .error (.InvalidSizeField 40 (readU32 h.baseBlock 40) h.data.length)
  else .ok ()

/-- Embedding of `Hive::validate_clustering_factor`: clustering factor 1. -/
def Hive.validateClusteringFactor (h : Hive) : Except NtHiveError Unit :=
  if readU32 h.baseBlock 44 = 1 then .ok ()
  else .error (.UnsupportedClusteringFactor 1 (readU32 h.baseBlock 44))

/-- Raw XOR-32 checksum of the 127 little-endian words preceding the checksum
field (byte offset 508) of the base block. -/
def calcChecksum (bb : List Nat) : Nat :=
  List.foldl (fun acc i => Nat.xor acc (readU32 bb (4 * i))) 0 (List.range 127)

/-- Normalization of the computed checksum: 0 becomes 1 and `0xFFFFFFFF`
becomes `0xFFFFFFFE`. -/
def normChecksum (c : Nat) : Nat :=
  if c = 0 then 1 else if c = 4294967295 then 4294967294 else c

/-- Embedding of `Hive::validate_checksum`: the stored checksum (base-block
field at offset 508) must equal the normalized computed checksum. -/
def Hive.validateChecksum (h : Hive) : Except NtHiveError Unit :=
  if readU32 h.baseBlock 508 = normChecksum (calcChecksum h.baseBlock) then
    .ok ()
  else .error (.InvalidChecksum (readU32 h.baseBlock 508)
    (normChecksum (calcChecksum h.baseBlock)))

/-- The validations that follow the signature check, in source order. -/
def Hive.validateRest (h : Hive) : Except NtHiveError Unit := do
  h.validateSequenceNumbers
  h.validateVersion
  h.validateFileType
  h.validateFileFormat
  h.validateDataSize
  h.validateClusteringFactor
  h.validateChecksum

/-- Panic-instrumented embedding of `Hive::validate`.  When the signature is
not `regf`, the error path calls `offset_of_field(&self.base_block.signature)`
whose `assert!(field_address > base_address)` fails (the signature field is
at offset 0 of the base block), so the source panics instead of returning
`InvalidFourByteSignature`; `none` models that panic. -/
def Hive.validateP (h : Hive) : Option (Except NtHiveError Unit) :=
  if hiveSignature h.baseBlock = regfSignature then some h.validateRest
  else none

/-- Panic-instrumented embedding of `Hive::new`. -/
def Hive.newP (bytes : List Nat) : Option (Except NtHiveError Hive) :=
  match Hive.withoutValidation bytes with
  | .error e => some (.error e)
  | .ok h =>
    match h.validateP with
    | none => none
    | some (.error e) => some (.error e)
    | some (.ok _) => some (.ok h)

/-- The bytes `b"vk"`. -/
def vkSignatureBytes : List Nat := [118, 107]

/-- The bytes `b"db"`. -/
def dbSignatureBytes : List Nat := [100, 98]

/-- The two signature bytes at the start of a record header. -/
def twoByteSignature (data : List Nat) (start : Nat) : List Nat :=
  [byteAt data start, byteAt data (start + 1)]

/-- Mirror of `KeyValue`: the header range and the trailing-data range of a
`vk` record inside the cell area (the hive itself is passed separately). -/
structure KeyValue where
  headerRange : ByteRange
  dataRange : ByteRange
deriving DecidableEq, Repr

/-- Embedding of `KeyValue::new`: carve the 20-byte `KeyValueHeader` out of
the cell range and validate the `vk` signature. -/
def KeyValue.new (data : List Nat) (cellRange : ByteRange) :
    Except NtHiveError KeyValue :=
  match byte_subrange cellRange 20 with
  | none =>
    .error (.InvalidHeaderSize (offset_of_data_offset cellRange.start) 20
      cellRange.len)
  | some headerRange =>
    if twoByteSignature data headerRange.start = vkSignatureBytes then
      .ok ⟨headerRange, ⟨headerRange.stop, cellRange.stop⟩⟩
    else
      .error (.InvalidTwoByteSignature (baseBlockSize + headerRange.start)
        vkSignatureBytes (twoByteSignature data headerRange.start))

/-- Number of bytes that a single Big Data segment can hold
(`BIG_DATA_SEGMENT_SIZE`). -/
def bigDataSegmentSize : Nat := 16344

/-- State of a `BigDataSlices` iterator: the remaining range of 4-byte
segment-list items and the number of data bytes still to be yielded. -/
structure BigDataState where
  itemsStart : Nat
  itemsStop : Nat
  bytesLeft : Nat
deriving DecidableEq, Repr

/-- Embedding of `BigDataListItemRanges::new` (and thus `BigDataSlices::new`):
verify the 8-byte `db` header, check `segment_count * 16344 >= data_size`,
resolve the segment list cell and carve `segment_count * 4` item bytes out of
it. -/
def BigDataState.new (data : List Nat) (dataSize : Nat)
    (dataSizeFieldOffset : Nat) (headerCellRange : ByteRange) :
    Except NtHiveError BigDataState :=
  match byte_subrange headerCellRange 8 with
  | none =>
    .error (.InvalidHeaderSize (offset_of_data_offset headerCellRange.start) 8
      headerCellRange.len)
  | some headerRange =>
    if twoByteSignature data headerRange.start = dbSignatureBytes then
      let segmentCount := readU16 data (headerRange.start + 2)
      if segmentCount * bigDataSegmentSize < dataSize then
        .error (.InvalidSizeField dataSizeFieldOffset
          (segmentCount * bigDataSegmentSize) dataSize)
      else
        match cellRangeFromDataOffset data
            (readU32 data (headerRange.start + 4)) with
        | .error e => .error e
        | .ok listRange =>
          match byte_subrange listRange (segmentCount * 4) with
          | none =>
            .error (.InvalidSizeField (baseBlockSize + headerRange.start + 2)
              (segmentCount * 4) listRange.len)
          | some itemsRange =>
            .ok ⟨itemsRange.start, itemsRange.stop, dataSize⟩
    else
      .error (.InvalidTwoByteSignature (baseBlockSize + headerRange.start)
        dbSignatureBytes (twoByteSignature data headerRange.start))

/-- Result of `KeyValue::data`: a contiguous byte slice or a Big Data
iterator. -/
inductive KeyValueData where
  | Small (bytes : List Nat)
  | Big (state : BigDataState)
deriving DecidableEq, Repr

/-- Raw `data_size` field of a Key Value (with the inline flag bit). -/
def KeyValue.dataSizeRaw (kv : KeyValue) (data : List Nat) : Nat :=
  readU32 data (kv.headerRange.start + 4)

/-- Embedding of `KeyValue::data_size`: the `data_size` field with the
`DATA_STORED_IN_DATA_OFFSET` high bit masked off. -/
def KeyValue.dataSize (kv : KeyValue) (data : List Nat) : Nat :=
  kv.dataSizeRaw data % 2147483648

/-- Embedding of `KeyValue::data`. -/
def KeyValue.data (kv : KeyValue) (data : List Nat) :
    Except NtHiveError KeyValueData :=
  if 2147483648 ≤ kv.dataSizeRaw data then
    if 4 < kv.dataSize data then
      .error (.InvalidSizeField (baseBlockSize + kv.headerRange.start + 4) 4
        (kv.dataSize data))
    else
      .ok (.Small (sliceRange data ⟨kv.headerRange.start + 8,
        kv.headerRange.start + 8 + kv.dataSize data⟩))
  else if kv.dataSize data ≤ bigDataSegmentSize then
    match cellRangeFromDataOffset data
        (readU32 data (kv.headerRange.start + 8)) with
    | .error e => .error e
    | .ok cellRange =>
      if cellRange.len < kv.dataSize data then
        .error (.InvalidDataSize (offset_of_data_offset cellRange.start)
          (kv.dataSize data) cellRange.len)
      else
        .ok (.Small (sliceRange data ⟨cellRange.start,
          cellRange.start + kv.dataSize data⟩))
  else
    match cellRangeFromDataOffset data
        (readU32 data (kv.headerRange.start + 8)) with
    | .error e => .error e
    | .ok cellRange =>
      match BigDataState.new data (kv.dataSize data)
          (baseBlockSize + kv.headerRange.start + 4) cellRange with
      | .error e => .error e
      | .ok st => .ok (.Big st)

/-- Panic-instrumented `KeyValue::data`: the non-inline paths feed the raw
`data_offset` field to `cell_range_from_data_offset`, whose
`assert!(data_offset != u32::MAX)` panics on the sentinel value; `none`
models that panic. -/
def KeyValue.dataP (kv : KeyValue) (data : List Nat) :
    Option (Except NtHiveError KeyValueData) :=
  if 2147483648 ≤ kv.dataSizeRaw data then
    some (kv.data data)
  else
    match cellRangeFromDataOffsetP data
        (readU32 data (kv.headerRange.start + 8)) with
    | none => none
    | some _ => some (kv.data data)

/-- Embedding of `KeyValue::data_type`. -/
def KeyValue.dataType (kv : KeyValue) (data : List Nat) :
    Except NtHiveError KeyValueDataType :=
  match KeyValueDataType.n (readU32 data (kv.headerRange.start + 12)) with
  | some t => .ok t
  | none =>
    .error (.UnsupportedKeyValueDataType (baseBlockSize + kv.headerRange.start
      + 12) (readU32 data (kv.headerRange.start + 12)))

/-- Little-endian `u32` from the first four entries of a byte list. -/
def listReadU32LE (l : List Nat) : Nat :=
  byteAt l 0 + 256 * byteAt l 1 + 65536 * byteAt l 2 + 16777216 * byteAt l 3

/-- Big-endian `u32` from the first four entries of a byte list. -/
def listReadU32BE (l : List Nat) : Nat :=
  16777216 * byteAt l 0 + 65536 * byteAt l 1 + 256 * byteAt l 2 + byteAt l 3

/-- Little-endian `u64` from the first eight entries of a byte list. -/
def listReadU64LE (l : List Nat) : Nat :=
  listReadU32LE l + 4294967296 * listReadU32LE (l.drop 4)

/-- Embedding of `KeyValue::dword_data`.  In the source, the
`InvalidDataSize` error for a wrong-sized slice carries
`offset_of_field(&data)` computed from the address of a stack local, which
is meaningless; that offset payload is modelled as 0. -/
def KeyValue.dwordData (kv : KeyValue) (data : List Nat) :
    Except NtHiveError Nat :=
  match kv.data data with
  | .error e => .error e
  | .ok (.Small s) =>
    if s.length ≠ 4 then .error (.InvalidDataSize 0 4 s.length)
    else
      match kv.dataType data with
      | .error e => .error e
      | .ok .RegDWord => .ok (listReadU32LE s)
      | .ok .RegDWordBigEndian => .ok (listReadU32BE s)
      | .ok t =>
        .error (.InvalidKeyValueDataType [.RegDWord, .RegDWordBigEndian] t)
  | .ok (.Big _) =>
    .error (.InvalidDataSize
      (offset_of_data_offset (readU32 data (kv.headerRange.start + 8))) 4
      (kv.dataSize data))

/-- Embedding of `KeyValue::qword_data` (same offset-payload modelling as
`KeyValue.dwordData`). -/
def KeyValue.qwordData (kv : KeyValue) (data : List Nat) :
    Except NtHiveError Nat :=
  match kv.data data with
  | .error e => .error e
  | .ok (.Small s) =>
    if s.length ≠ 8 then .error (.InvalidDataSize 0 8 s.length)
    else
      match kv.dataType data with
      | .error e => .error e
      | .ok .RegQWord => .ok (listReadU64LE s)
      | .ok t => .error (.InvalidKeyValueDataType [.RegQWord] t)
  | .ok (.Big _) =>
    .error (.InvalidDataSize
      (offset_of_data_offset (readU32 data (kv.headerRange.start + 8))) 8
      (kv.dataSize data))

/-- Cell area holding one allocated cell (offset 0, size -32) with a `vk`
record whose data size is 5 (not inline) and whose data offset is the
sentinel `0xFFFFFFFF`. -/
def keyValueCellSentinel : List Nat :=
  [224, 255, 255, 255, 118, 107, 0, 0, 5, 0, 0, 0, 255, 255, 255, 255,
   3, 0, 0, 0, 0, 0, 0, 0] ++ List.replicate 16 0

/-- Cell area holding one allocated cell with a `vk` record of type `RegSZ`
whose 2 data bytes are stored inline in the data-offset field. -/
def keyValueCellInlineSZ2 : List Nat :=
  [224, 255, 255, 255, 118, 107, 0, 0, 2, 0, 0, 128, 170, 187, 0, 0,
   1, 0, 0, 0, 0, 0, 0, 0] ++ List.replicate 16 0

/-- Cell area holding one allocated cell with a `vk` record of type `RegSZ`
whose 4 data bytes are stored inline in the data-offset field. -/
def keyValueCellInlineSZ4 : List Nat :=
  [224, 255, 255, 255, 118, 107, 0, 0, 4, 0, 0, 128, 1, 2, 3, 4,
   1, 0, 0, 0, 0, 0, 0, 0] ++ List.replicate 16 0

/-- The `KeyValue` view produced by `KeyValue::new` on the 32-byte cell at
offset 0 of the three buffers above. -/
def keyValueAt4 : KeyValue := ⟨⟨4, 24⟩, ⟨24, 36⟩⟩

/-- Embedding of `BigDataSlices::next`: yield up to 16344 bytes from the next
segment cell, or `none` when the data or the segment-list items are
exhausted.  Returns the yielded item together with the advanced iterator
state. -/
def BigDataState.next (data : List Nat) (s : BigDataState) :
    Option (Except NtHiveError (List Nat)) × BigDataState :=
  let bytesToReturn := min s.bytesLeft bigDataSegmentSize
  if bytesToReturn = 0 then (none, s)
  else if s.itemsStart + 4 ≤ s.itemsStop then
    (some (match cellRangeFromDataOffset data (readU32 data s.itemsStart) with
      | .error e => .error e
      | .ok cellRange =>
        match byte_subrange cellRange bytesToReturn with
        | none =>
          .error (.InvalidDataSize (offset_of_data_offset cellRange.start)
            bytesToReturn cellRange.len)
        | some dataRange => .ok (sliceRange data dataRange)),
     ⟨s.itemsStart + 4, s.itemsStop, s.bytesLeft - bytesToReturn⟩)
  else (none, s)

/-- Driving the `BigDataSlices` iterator to exhaustion: the list of all
yielded items. -/
def BigDataState.collect (data : List Nat) (s : BigDataState) :
    List (Except NtHiveError (List Nat)) :=
  match h : BigDataState.next data s with
  | (none, _) => []
  | (some r, s') => r :: BigDataState.collect data s'
termination_by s.itemsStop - s.itemsStart
decreasing_by
  unfold BigDataState.next at h
  by_cases h1 : min s.bytesLeft bigDataSegmentSize = 0
  · simp [h1] at h
  · by_cases h2 : s.itemsStart + 4 ≤ s.itemsStop
    · rw [if_neg h1, if_pos h2] at h
      simp only [Prod.mk.injEq] at h
      rw [← h.2]
      dsimp only
      omega
    · simp [h1, h2] at h

/-- Length of the byte slice carried by one yielded Big Data item (0 for an
error item). -/
def segLenOf (x : Except NtHiveError (List Nat)) : Nat :=
  match x with
  | .ok l => l.length
  | .error _ => 0

/-- Expected segment lengths for a Big Data value of `n` bytes: full 16344
byte segments followed by the remainder. -/
def segmentLens (n : Nat) : List Nat :=
  if n = 0 then []
  else if n ≤ bigDataSegmentSize then [n]
  else bigDataSegmentSize :: segmentLens (n - bigDataSegmentSize)
termination_by n
decreasing_by
  rw [bigDataSegmentSize]
  omega

/-- First 36 bytes of a cell area holding a Big Data structure: a `db` header
cell at offset 0 (2 segments, segment list at offset 16), the segment-list
cell at offset 16 (both items pointing at offset 32), and the size field of
the 16352-byte segment cell at offset 32. -/
def bigSegPrefix : List Nat :=
  [240, 255, 255, 255, 100, 98, 2, 0, 16, 0, 0, 0, 0, 0, 0, 0,
   240, 255, 255, 255, 32, 0, 0, 0, 32, 0, 0, 0, 0, 0, 0, 0,
   32, 192, 255, 255]

/-- Cell area with a well-formed Big Data structure for a 16345-byte value:
the prefix above followed by the body of the segment cell at offset 32. -/
def bigSegData : List Nat := bigSegPrefix ++ List.replicate 16352 65

/-- The bytes `b"nk"`. -/
def nkSignatureBytes : List Nat := [110, 107]

/-- Mirror of `KeyNodeItemRange`: header range and trailing-data range of an
`nk` record. -/
structure KeyNodeItemRange where
  headerRange : ByteRange
  dataRange : ByteRange
deriving DecidableEq, Repr

/-- Embedding of `KeyNodeItemRange::from_cell_range`: carve the 76-byte
`KeyNodeHeader` out of the cell range and validate the `nk` signature. -/
def KeyNodeItemRange.fromCellRange (data : List Nat) (cellRange : ByteRange) :
    Except NtHiveError KeyNodeItemRange :=
  match byte_subrange cellRange 76 with
  | none =>
    .error (.InvalidHeaderSize (offset_of_data_offset cellRange.start) 76
      cellRange.len)
  | some headerRange =>
    if twoByteSignature data headerRange.start = nkSignatureBytes then
      .ok ⟨headerRange, ⟨headerRange.stop, cellRange.stop⟩⟩
    else
      .error (.InvalidTwoByteSignature (baseBlockSize + headerRange.start)
        nkSignatureBytes (twoByteSignature data headerRange.start))

/-- Mirror of `NtHiveNameString`: a name is either Latin-1 (one byte per
code point) or UTF-16LE encoded. -/
structure NameStr where
  latin1 : Bool
  bytes : List Nat
deriving DecidableEq, Repr

/-- Embedding of `KeyNodeItemRange::name`: the key-name bytes from the data
trailer, Latin-1 when the `KEY_COMP_NAME` flag (0x0020) is set. -/
def KeyNodeItemRange.name (data : List Nat) (knr : KeyNodeItemRange) :
    Except NtHiveError NameStr :=
  let keyNameLength := readU16 data (knr.headerRange.start + 72)
  match byte_subrange knr.dataRange keyNameLength with
  | none =>
    .error (.InvalidSizeField (baseBlockSize + knr.headerRange.start + 72)
      keyNameLength knr.dataRange.len)
  | some keyNameRange =>
    if readU16 data (knr.headerRange.start + 2) / 32 % 2 = 1 then
      .ok ⟨true, sliceRange data keyNameRange⟩
    else .ok ⟨false, sliceRange data keyNameRange⟩

/-- Embedding of `KeyValue::name`: the value-name bytes from the data
trailer, Latin-1 when the `VALUE_COMP_NAME` flag (0x0001) is set. -/
def KeyValue.name (kv : KeyValue) (data : List Nat) :
    Except NtHiveError NameStr :=
  let nameLength := readU16 data (kv.headerRange.start + 2)
  match byte_subrange kv.dataRange nameLength with
  | none =>
    .error (.InvalidSizeField (baseBlockSize + kv.headerRange.start + 2)
      nameLength kv.dataRange.len)
  | some nameRange =>
    if readU16 data (kv.headerRange.start + 16) % 2 = 1 then
      .ok ⟨true, sliceRange data nameRange⟩
    else .ok ⟨false, sliceRange data nameRange⟩

/-- Embedding of the scan loop of `KeyNodeItemRange::value`: iterate the
4-byte values-list items from `pos` to `stop` (the `KeyValues` iterator) and
apply the `find` predicate of the source: stop at the first item that fails
to resolve (yielding its error), whose name fails to load (yielding the item
itself), or whose name matches.  The name comparison of the missing
`NtHiveNameString` module is a parameter `eqName`.  A sentinel item offset is
processed like any other offset here; the panic it actually causes in the
source is covered by the analysis of `cell_range_from_data_offset`. -/
def valueScan (data : List Nat) (eqName : NameStr → Bool) (pos stop : Nat) :
    Option (Except NtHiveError KeyValue) :=
  if _h : pos + 4 ≤ stop then
    match cellRangeFromDataOffset data (readU32 data pos) with
    | .error e => some (.error e)
    | .ok cr =>
      match KeyValue.new data cr with
      | .error e => some (.error e)
      | .ok kv =>
        match KeyValue.name kv data with
        | .error _ => some (.ok kv)
        | .ok nm =>
          if eqName nm then some (.ok kv)
          else valueScan data eqName (pos + 4) stop
  else none
termination_by stop - pos
decreasing_by omega

/-- Result of the scan at a single values-list item: `some r` when the scan
halts there with result `r` (resolution error, unreadable name — yielding
the item as `Ok` — or name match), `none` when the scan moves on. -/
def scanStop (data : List Nat) (eqName : NameStr → Bool) (pos : Nat) :
    Option (Except NtHiveError KeyValue) :=
  match cellRangeFromDataOffset data (readU32 data pos) with
  | .error e => some (.error e)
  | .ok cr =>
    match KeyValue.new data cr with
    | .error e => some (.error e)
    | .ok kv =>
      match KeyValue.name kv data with
      | .error _ => some (.ok kv)
      | .ok nm => if eqName nm then some (.ok kv) else none

/-- Embedding of `KeyNodeItemRange::value` (via `values`): resolve the
values-list cell (sentinel offset means no values), carve `count * 4` item
bytes out of it, then scan. -/
def KeyNodeItemRange.valueFn (data : List Nat) (eqName : NameStr → Bool)
    (knr : KeyNodeItemRange) : Option (Except NtHiveError KeyValue) :=
  let off := readU32 data (knr.headerRange.start + 40)
  if off = 4294967295 then none
  else
    match cellRangeFromDataOffset data off with
    | .error e => some (.error e)
    | .ok cellRange =>
      let count := readU32 data (knr.headerRange.start + 36)
      match byte_subrange cellRange (count * 4) with
      | none =>
        some (.error (.InvalidSizeField
          (baseBlockSize + knr.headerRange.start + 36) (count * 4)
          cellRange.len))
      | some itemsRange => valueScan data eqName itemsRange.start
          itemsRange.stop

/-- Name predicate matching the single Latin-1 byte `x`. -/
def eqNameX : NameStr → Bool := fun nm => nm.bytes = [120]

/-- Cell area with one `nk` node whose values list has two entries: the
first resolves to a `vk` record whose name length (255) exceeds its cell, the
second to a well-formed `vk` record named `x`. -/
def valuesListHive : List Nat :=
  [168, 255, 255, 255,
   110, 107, 32, 0, 0, 0, 0, 0, 0, 0, 0, 0,
   0, 0, 0, 0, 0, 0, 0, 0, 0, 0, 0, 0, 0, 0, 0, 0,
   0, 0, 0, 0, 0, 0, 0, 0, 2, 0, 0, 0, 88, 0, 0, 0,
   0, 0, 0, 0, 0, 0, 0, 0, 0, 0, 0, 0, 0, 0, 0, 0,
   0, 0, 0, 0, 0, 0, 0, 0, 0, 0, 0, 0, 1, 0, 0, 0,
   82, 0, 0, 0, 0, 0, 0, 0,
   240, 255, 255, 255, 104, 0, 0, 0, 136, 0, 0, 0, 0, 0, 0, 0,
   224, 255, 255, 255,
   118, 107, 255, 0, 4, 0, 0, 128, 0, 0, 0, 0, 1, 0, 0, 0, 1, 0, 0, 0,
   0, 0, 0, 0, 0, 0, 0, 0,
   224, 255, 255, 255,
   118, 107, 1, 0, 4, 0, 0, 128, 9, 9, 9, 9, 1, 0, 0, 0, 1, 0, 0, 0,
   120, 0, 0, 0, 0, 0, 0, 0, 0, 0, 0, 0] ++ List.replicate 4 0

/-- The `nk` item range of the node at cell offset 0 of `valuesListHive`. -/
def valuesListNode : KeyNodeItemRange := ⟨⟨4, 80⟩, ⟨80, 92⟩⟩

/-- Mirror of `LeafType`: the three Leaf container variants. -/
inductive LeafType where
  | Fast
  | Hash
  | Index
deriving DecidableEq, Repr

/-- Mirror of `LeafType::from_signature`. -/
def LeafType.fromSignature (sig : List Nat) : Option LeafType :=
  if sig = [108, 102] then some .Fast
  else if sig = [108, 104] then some .Hash
  else if sig = [108, 105] then some .Index
  else none

/-- Mirror of `LeafType::item_size`. -/
def LeafType.itemSize : LeafType → Nat
  | .Fast => 8
  | .Hash => 8
  | .Index => 4

/-- Mirror of `LeafItemRanges`: the remaining range of Leaf items and the
variant's item size. -/
structure LeafItemRanges where
  itemsStart : Nat
  itemsStop : Nat
  leafType : LeafType
deriving DecidableEq, Repr

/-- Iterator length (`size_hint`). -/
def LeafItemRanges.len (it : LeafItemRanges) : Nat :=
  (it.itemsStop - it.itemsStart) / it.leafType.itemSize

/-- Embedding of `Iterator::nth` on `LeafItemRanges`: skip `n` items, then
take the next item range. -/
def LeafItemRanges.nth (it : LeafItemRanges) (n : Nat) : Option ByteRange :=
  byte_subrange ⟨it.itemsStart + n * it.leafType.itemSize, it.itemsStop⟩
    it.leafType.itemSize

/-- Embedding of `LeafItemRanges::new`: carve `count` items out of the data
range. -/
def LeafItemRanges.new (count : Nat) (countFieldOffset : Nat)
    (dataRange : ByteRange) (leafType : LeafType) :
    Except NtHiveError LeafItemRanges :=
  match byte_subrange dataRange (count * leafType.itemSize) with
  | none =>
    .error (.InvalidSizeField countFieldOffset (count * leafType.itemSize)
      dataRange.len)
  | some itemsRange => .ok ⟨itemsRange.start, itemsRange.stop, leafType⟩

/-- Embedding of `KeyNodeItemRange::from_leaf_item_range`: read the
`key_node_offset` (first field of every Leaf item variant), resolve it to a
cell and build the Key Node view.  A sentinel offset is processed like any
other offset here; the panic it actually causes in the source is covered by
the analysis of `cell_range_from_data_offset`. -/
def KeyNodeItemRange.fromLeafItemRange (data : List Nat) (lir : ByteRange) :
    Except NtHiveError KeyNodeItemRange :=
  match cellRangeFromDataOffset data (readU32 data lir.start) with
  | .error e => .error e
  | .ok cellRange => KeyNodeItemRange.fromCellRange data cellRange

/-- One step of the Leaf binary search, as composed in the loop body of
`binary_search_subkey_in_leaf`: take the `i`-th item, build its Key Node,
read its name and compare it with the searched name.  The comparison of the
missing `NtHiveNameString` module is the parameter `cmp` (the searched name
is baked into it); `cmp _ = none` models the `partial_cmp(...).unwrap()`
panic, and a failing `nth` models the `.nth(mid).unwrap()` panic (both are
unreachable for the index ranges the search uses). -/
def leafProbe (data : List Nat) (cmp : NameStr → Option Ordering)
    (items : LeafItemRanges) (i : Nat) :
    Option (Except NtHiveError (KeyNodeItemRange × Ordering)) :=
  match items.nth i with
  | none => none
  | some lir =>
    match KeyNodeItemRange.fromLeafItemRange data lir with
    | .error e => some (.error e)
    | .ok k =>
      match KeyNodeItemRange.name data k with
      | .error e => some (.error e)
      | .ok nm =>
        match cmp nm with
        | none => none
        | some o => some (.ok (k, o))

/-- Embedding of the loop of `binary_search_subkey_in_leaf`.  `left`, `right`
and `mid` are the signed indices of the source; on the states the search
reaches `left` is non-negative, where Lean's integer division agrees with
Rust's. -/
def leafSearchGo (data : List Nat) (cmp : NameStr → Option Ordering)
    (items : LeafItemRanges) (left right : Int) :
    Option (Except NtHiveError KeyNodeItemRange) :=
  if _h : left ≤ right then
    match leafProbe data cmp items (((left + right) / 2).toNat) with
    | none => none
    | some (.error e) => some (.error e)
    | some (.ok (k, .eq)) => some (.ok k)
    | some (.ok (_, .lt)) =>
      leafSearchGo data cmp items ((left + right) / 2 + 1) right
    | some (.ok (_, .gt)) =>
      leafSearchGo data cmp items left ((left + right) / 2 - 1)
  else none
termination_by (right + 1 - left).toNat
decreasing_by
  · omega
  · omega

/-- Embedding of `KeyNodeItemRange::binary_search_subkey_in_leaf`. -/
def binarySearchSubkeyInLeaf (data : List Nat)
    (cmp : NameStr → Option Ordering) (items : LeafItemRanges) :
    Option (Except NtHiveError KeyNodeItemRange) :=
  leafSearchGo data cmp items 0 ((items.len : Int) - 1)

/-- Modelled from the spec: `IndexRootItemRanges` (the module is not under
src/), the iterator over the 4-byte Index Root items, built exactly like the
Leaf item iterator with item size 4 (spec section 4.3). -/
structure IndexRootItemRanges where
  itemsStart : Nat
  itemsStop : Nat
deriving DecidableEq, Repr

/-- Iterator length of an Index Root item iterator. -/
def IndexRootItemRanges.len (it : IndexRootItemRanges) : Nat :=
  (it.itemsStop - it.itemsStart) / 4

/-- Embedding of `Iterator::nth` on `IndexRootItemRanges`. -/
def IndexRootItemRanges.nth (it : IndexRootItemRanges) (n : Nat) :
    Option ByteRange :=
  byte_subrange ⟨it.itemsStart + n * 4, it.itemsStop⟩ 4

/-- The bytes `b"lf|lh|li"`. -/
def leafSignaturesBytes : List Nat := [108, 102, 124, 108, 104, 124, 108, 105]

/-- The bytes `b"lf|lh|li|ri"`. -/
def allSignaturesBytes : List Nat :=
  [108, 102, 124, 108, 104, 124, 108, 105, 124, 114, 105]

/-- Embedding of `LeafItemRanges::from_index_root_item_range`: resolve the
subkeys-list offset of the Index Root item, validate the inner list with
`SubkeysList::new_without_index_root` (signature `lf`, `lh` or `li` only),
require a non-empty list and carve out its items. -/
def LeafItemRanges.fromIndexRootItemRange (data : List Nat)
    (irr : ByteRange) : Except NtHiveError LeafItemRanges :=
  match cellRangeFromDataOffset data (readU32 data irr.start) with
  | .error e => .error e
  | .ok cellRange =>
    if cellRange.stop < cellRange.start + 4 then
      .error (.InvalidHeaderSize (offset_of_data_offset cellRange.start) 4
        cellRange.len)
    else
      match LeafType.fromSignature (twoByteSignature data cellRange.start) with
      | none =>
        .error (.InvalidTwoByteSignature (baseBlockSize + cellRange.start)
          leafSignaturesBytes (twoByteSignature data cellRange.start))
      | some leafType =>
        if readU16 data (cellRange.start + 2) = 0 then
          .error (.InvalidSizeField (baseBlockSize + cellRange.start + 2) 1 0)
        else
          LeafItemRanges.new (readU16 data (cellRange.start + 2))
            (baseBlockSize + cellRange.start + 2)
            ⟨cellRange.start + 4, cellRange.stop⟩ leafType

/-- Embedding of the loop of `binary_search_subkey_in_index_root`: probe the
first and last Key Nodes of the middle item's Leaf, and either return, halve
the range, or delegate to the Leaf binary search. -/
def indexRootSearchGo (data : List Nat) (cmp : NameStr → Option Ordering)
    (irItems : IndexRootItemRanges) (left right : Int) :
    Option (Except NtHiveError KeyNodeItemRange) :=
  if _h : left ≤ right then
    match irItems.nth (((left + right) / 2).toNat) with
    | none => none
    | some irr =>
      match LeafItemRanges.fromIndexRootItemRange data irr with
      | .error e => some (.error e)
      | .ok leafItems =>
        match leafProbe data cmp leafItems 0 with
        | none => none
        | some (.error e) => some (.error e)
        | some (.ok (k, .eq)) => some (.ok k)
        | some (.ok (_, .gt)) =>
          indexRootSearchGo data cmp irItems left ((left + right) / 2 - 1)
        | some (.ok (_, .lt)) =>
          match leafProbe data cmp leafItems (leafItems.len - 1) with
          | none => none
          | some (.error e) => some (.error e)
          | some (.ok (k, .eq)) => some (.ok k)
          | some (.ok (_, .lt)) =>
            indexRootSearchGo data cmp irItems ((left + right) / 2 + 1) right
          | some (.ok (_, .gt)) =>
            binarySearchSubkeyInLeaf data cmp leafItems
  else none
termination_by (right + 1 - left).toNat
decreasing_by
  · omega
  · omega

/-- Embedding of `KeyNodeItemRange::binary_search_subkey_in_index_root`. -/
def binarySearchSubkeyInIndexRoot (data : List Nat)
    (cmp : NameStr → Option Ordering) (irItems : IndexRootItemRanges) :
    Option (Except NtHiveError KeyNodeItemRange) :=
  indexRootSearchGo data cmp irItems 0 ((irItems.len : Int) - 1)

/-- Embedding of `KeyNodeItemRange::subkeys_cell_range`: the sentinel
subkeys-list offset means "no subkeys". -/
def KeyNodeItemRange.subkeysCellRange (data : List Nat)
    (knr : KeyNodeItemRange) : Option (Except NtHiveError ByteRange) :=
  if readU32 data (knr.headerRange.start + 28) = 4294967295 then none
  else
    match cellRangeFromDataOffset data
        (readU32 data (knr.headerRange.start + 28)) with
    | .error e => some (.error e)
    | .ok cr => some (.ok cr)

/-- The two container shapes produced by `SubKeyNodes::new`. -/
inductive SubKeyNodesKind where
  | leaf (items : LeafItemRanges)
  | indexRoot (items : IndexRootItemRanges)
deriving DecidableEq, Repr

/-- Modelled from the spec: `SubKeyNodes::new` (the module is not under
src/): validate the common subkeys-list header, accept `lf`, `lh`, `li` or
`ri` (spec section 4.3), and build the matching item iterator over the list
body. -/
def subKeyNodesNew (data : List Nat) (cellRange : ByteRange) :
    Except NtHiveError SubKeyNodesKind :=
  if cellRange.stop < cellRange.start + 4 then
    .error (.InvalidHeaderSize (offset_of_data_offset cellRange.start) 4
      cellRange.len)
  else if twoByteSignature data cellRange.start = [114, 105] then
    match byte_subrange ⟨cellRange.start + 4, cellRange.stop⟩
        (readU16 data (cellRange.start + 2) * 4) with
    | none =>
      .error (.InvalidSizeField (baseBlockSize + cellRange.start + 2)
        (readU16 data (cellRange.start + 2) * 4)
        (cellRange.stop - (cellRange.start + 4)))
    | some items => .ok (.indexRoot ⟨items.start, items.stop⟩)
  else
    match LeafType.fromSignature (twoByteSignature data cellRange.start) with
    | none =>
      .error (.InvalidTwoByteSignature (baseBlockSize + cellRange.start)
        allSignaturesBytes (twoByteSignature data cellRange.start))
    | some leafType =>
      match LeafItemRanges.new (readU16 data (cellRange.start + 2))
          (baseBlockSize + cellRange.start + 2)
          ⟨cellRange.start + 4, cellRange.stop⟩ leafType with
      | .error e => .error e
      | .ok items => .ok (.leaf items)

/-- Embedding of `KeyNodeItemRange::subkey`: resolve the subkeys list and
dispatch to the Index Root or Leaf binary search. -/
def KeyNodeItemRange.subkey (data : List Nat)
    (cmp : NameStr → Option Ordering) (knr : KeyNodeItemRange) :
    Option (Except NtHiveError KeyNodeItemRange) :=
  match KeyNodeItemRange.subkeysCellRange data knr with
  | none => none
  | some (.error e) => some (.error e)
  | some (.ok cellRange) =>
    match subKeyNodesNew data cellRange with
    | .error e => some (.error e)
    | .ok (.indexRoot irItems) =>
      binarySearchSubkeyInIndexRoot data cmp irItems
    | .ok (.leaf items) => binarySearchSubkeyInLeaf data cmp items

/-- Every index below the Leaf's length probes successfully. -/
def LeafAllOk (data : List Nat) (cmp : NameStr → Option Ordering)
    (items : LeafItemRanges) : Prop :=
  ∀ i, i < items.len →
    ∃ k o, leafProbe data cmp items i = some (.ok (k, o))

/-- The Leaf's key-node names are strictly sorted with respect to the
searched name: once a probe does not compare `Less`, every later probe
compares `Greater`.  This is the comparison-level consequence of the spec's
sortedness invariant for Leaf containers. -/
def LeafSorted (data : List Nat) (cmp : NameStr → Option Ordering)
    (items : LeafItemRanges) : Prop :=
  ∀ i j ki oi kj oj, i < j → j < items.len →
    leafProbe data cmp items i = some (.ok (ki, oi)) →
    leafProbe data cmp items j = some (.ok (kj, oj)) →
    oi ≠ .lt → oj = .gt

/-- Some Leaf item's key node carries exactly the searched name. -/
def LeafHasMatch (data : List Nat) (cmp : NameStr → Option Ordering)
    (items : LeafItemRanges) : Prop :=
  ∃ i, i < items.len ∧
    ∃ k, leafProbe data cmp items i = some (.ok (k, .eq))

/-- Resolution of the `a`-th Index Root item to its Leaf. -/
def irLeafAt (data : List Nat) (irItems : IndexRootItemRanges) (a : Nat) :
    Option (Except NtHiveError LeafItemRanges) :=
  match irItems.nth a with
  | none => none
  | some irr => some (LeafItemRanges.fromIndexRootItemRange data irr)

/-- Every Index Root item resolves to a Leaf all of whose probes succeed. -/
def IRAllOk (data : List Nat) (cmp : NameStr → Option Ordering)
    (irItems : IndexRootItemRanges) : Prop :=
  ∀ a, a < irItems.len →
    ∃ L, irLeafAt data irItems a = some (.ok L) ∧ LeafAllOk data cmp L

/-- Comparison-level sortedness across the whole two-level structure, in
lexicographic item order: once a probe does not compare `Less`, every
lexicographically later probe compares `Greater`. -/
def IRSorted (data : List Nat) (cmp : NameStr → Option Ordering)
    (irItems : IndexRootItemRanges) : Prop :=
  ∀ a b La Lb i j ki oi kj oj, a ≤ b → b < irItems.len →
    irLeafAt data irItems a = some (.ok La) →
    irLeafAt data irItems b = some (.ok Lb) →
    (a < b ∨ i < j) → i < La.len → j < Lb.len →
    leafProbe data cmp La i = some (.ok (ki, oi)) →
    leafProbe data cmp Lb j = some (.ok (kj, oj)) →
    oi ≠ .lt → oj = .gt

/-- Some Leaf of the Index Root carries exactly the searched name. -/
def IRHasMatch (data : List Nat) (cmp : NameStr → Option Ordering)
    (irItems : IndexRootItemRanges) : Prop :=
  ∃ a, a < irItems.len ∧
    ∃ L, irLeafAt data irItems a = some (.ok L) ∧ LeafHasMatch data cmp L

/-- Well-formedness of a subkey container with respect to the searched name:
all probes resolve and the names are sorted (the spec's well-formed-hive
assumption). -/
def ContainerWF (data : List Nat) (cmp : NameStr → Option Ordering) :
    SubKeyNodesKind → Prop
  | .leaf items => LeafAllOk data cmp items ∧ LeafSorted data cmp items
  | .indexRoot irItems => IRAllOk data cmp irItems ∧ IRSorted data cmp irItems

/-- A subkey with the searched name exists in the container. -/
def ContainerHasMatch (data : List Nat) (cmp : NameStr → Option Ordering) :
    SubKeyNodesKind → Prop
  | .leaf items => LeafHasMatch data cmp items
  | .indexRoot irItems => IRHasMatch data cmp irItems

/-- Comparator for the searched name `A` over Latin-1 names (used by the
concrete witness hive): `A` itself compares equal, everything else greater. -/
def cmpA : NameStr → Option Ordering :=
  fun nm => if nm.bytes = [65] then some .eq else some .gt

/-- Cell area with a parent `nk` node (cell offset 104) whose `li` subkeys
list (cell offset 88) holds one subkey: the node named `A` at cell offset
0. -/
def subkeyHive : List Nat :=
  [168, 255, 255, 255, 110, 107, 32, 0] ++ List.replicate 68 0 ++
    [1, 0, 0, 0] ++ [65, 0, 0, 0, 0, 0, 0, 0] ++
    [240, 255, 255, 255, 108, 105, 1, 0, 0, 0, 0, 0, 0, 0, 0, 0] ++
    [168, 255, 255, 255, 110, 107, 32, 0] ++ List.replicate 24 0 ++
    [88, 0, 0, 0] ++ List.replicate 40 0 ++ [1, 0, 0, 0] ++ [82] ++
    List.replicate 15 0

/-- The `nk` item range of the parent node of `subkeyHive`. -/
def subkeyHiveParent : KeyNodeItemRange := ⟨⟨108, 184⟩, ⟨184, 196⟩⟩

/-- Zeroing a 32-bit field in place: `header.volatile_subkey_count.set(0)`
writes the four bytes starting at `pos` to zero. -/
def write4zero (data : List Nat) (pos : Nat) : List Nat :=
  (((data.set pos 0).set (pos + 1) 0).set (pos + 2) 0).set (pos + 3) 0

/-- Outcome of the mutating traversal `clear_volatile_subkeys`: success, a
returned error, or an abort (a failing `assert!` on a sentinel offset, or a
recursion deeper than the fuel bound). -/
inductive ClearOutcome where
  | ok
  | err (e : NtHiveError)
  | panicked
deriving DecidableEq, Repr

mutual

/-- Embedding of `KeyNode::clear_volatile_subkeys`: zero the
`volatile_subkey_count` field (4 bytes at header offset 24), then read the
`subkeys_list_offset` field (header offset 28) from the mutated buffer; the
sentinel means "no subkeys" and the node is done.  Otherwise resolve the
subkeys list and recurse into every subkey, stopping at the first error.
The container construction `SubKeyNodesMut::new` is missing from src/ and
is taken from `subKeyNodesNew` (modelled from the spec, section 4.3); it
performs the same checks as the old-era `SubkeysList::new` plus the item
bound checks of the per-variant iterators.  The result is the final cell
area, the header starts of all `nk` records whose field was written, in
visit order, and the outcome. -/
def clearNode (data : List Nat) (hdrStart : Nat) (fuel : Nat) :
    List Nat × List Nat × ClearOutcome :=
  if _hf : fuel = 0 then (data, [], .panicked)
  else
    if readU32 (write4zero data (hdrStart + 24)) (hdrStart + 28) =
        4294967295 then
      (write4zero data (hdrStart + 24), [hdrStart], .ok)
    else
      match cellRangeFromDataOffset (write4zero data (hdrStart + 24))
          (readU32 (write4zero data (hdrStart + 24)) (hdrStart + 28)) with
      | .error e => (write4zero data (hdrStart + 24), [hdrStart], .err e)
      | .ok cr =>
        match subKeyNodesNew (write4zero data (hdrStart + 24)) cr with
        | .error e => (write4zero data (hdrStart + 24), [hdrStart], .err e)
        | .ok (.leaf items) =>
          match clearLeafLoop (write4zero data (hdrStart + 24))
              items.itemsStart items.itemsStop items.leafType (fuel - 1) with
          | (d2, ws, oc) => (d2, hdrStart :: ws, oc)
        | .ok (.indexRoot items) =>
          match clearIRLoop (write4zero data (hdrStart + 24))
              items.itemsStart items.itemsStop (fuel - 1) with
          | (d2, ws, oc) => (d2, hdrStart :: ws, oc)
termination_by (fuel, 0, 0)
decreasing_by
  · apply Prod.Lex.left; omega
  · apply Prod.Lex.left; omega

/-- Embedding of the Leaf arm of the `while let Some(subkey) = subkeys.next()`
loop of `clear_volatile_subkeys`: items of `lt.itemSize` bytes are consumed
from the byte range `pos..stop` (`next_key_node_offset` on the current,
already mutated buffer); the leading `key_node_offset` of each item is
resolved to a cell (the source's `assert!` fires on a stored sentinel),
the Key Node view is built (`KeyNode::new`, checking header size and `nk`
signature) and the node is cleared recursively. -/
def clearLeafLoop (data : List Nat) (pos stop : Nat) (lt : LeafType)
    (fuel : Nat) : List Nat × List Nat × ClearOutcome :=
  if _hi : pos + lt.itemSize ≤ stop then
    if readU32 data pos = 4294967295 then (data, [], .panicked)
    else
      match cellRangeFromDataOffset data (readU32 data pos) with
      | .error e => (data, [], .err e)
      | .ok cr =>
        match KeyNodeItemRange.fromCellRange data cr with
        | .error e => (data, [], .err e)
        | .ok knr =>
          match clearNode data knr.headerRange.start fuel with
          | (d2, ws, .ok) =>
            match clearLeafLoop d2 (pos + lt.itemSize) stop lt fuel with
            | (d3, ws2, oc) => (d3, ws ++ ws2, oc)
          | (d2, ws, .err e) => (d2, ws, .err e)
          | (d2, ws, .panicked) => (d2, ws, .panicked)
  else (data, [], .ok)
termination_by (fuel, 1, stop + 1 - pos)
decreasing_by
  · apply Prod.Lex.right; apply Prod.Lex.left; omega
  · cases lt
    all_goals simp only [LeafType.itemSize] at *
    all_goals apply Prod.Lex.right
    all_goals apply Prod.Lex.right
    all_goals omega

/-- Embedding of `IndexRootIterMut::next` as iterated by
`clear_volatile_subkeys`: 4-byte Index Root elements are consumed from
`pos..stop`; each element's `subkeys_list_offset` is resolved to a cell
(the `assert!` fires on a stored sentinel), the inner list is validated by
`SubkeysList::new_without_index_root` (header size, then signature `lf`,
`lh` or `li`), its item range is carved out, and the inner Leaf items are
cleared before moving to the next element. -/
def clearIRLoop (data : List Nat) (pos stop : Nat) (fuel : Nat) :
    List Nat × List Nat × ClearOutcome :=
  if _hi : pos + 4 ≤ stop then
    if readU32 data pos = 4294967295 then (data, [], .panicked)
    else
      match cellRangeFromDataOffset data (readU32 data pos) with
      | .error e => (data, [], .err e)
      | .ok cr =>
        if cr.stop < cr.start + 4 then
          (data, [],
            .err (.InvalidHeaderSize (offset_of_data_offset cr.start) 4
              cr.len))
        else
          match LeafType.fromSignature (twoByteSignature data cr.start) with
          | none =>
            (data, [],
              .err (.InvalidTwoByteSignature (baseBlockSize + cr.start)
                leafSignaturesBytes (twoByteSignature data cr.start)))
          | some lt2 =>
            match LeafItemRanges.new (readU16 data (cr.start + 2))
                (baseBlockSize + cr.start + 2) ⟨cr.start + 4, cr.stop⟩
                lt2 with
            | .error e => (data, [], .err e)
            | .ok items =>
              match clearLeafLoop data items.itemsStart items.itemsStop
                  items.leafType fuel with
              | (d2, ws, .ok) =>
                match clearIRLoop d2 (pos + 4) stop fuel with
                | (d3, ws2, oc) => (d3, ws ++ ws2, oc)
              | (d2, ws, .err e) => (d2, ws, .err e)
              | (d2, ws, .panicked) => (d2, ws, .panicked)
  else (data, [], .ok)
termination_by (fuel, 2, stop + 1 - pos)
decreasing_by
  · apply Prod.Lex.right; apply Prod.Lex.left; omega
  · apply Prod.Lex.right; apply Prod.Lex.right; omega

end

/-- Embedding of `Hive::clear_volatile_subkeys` composed with
`root_key_node_mut`: read the `root_cell_offset` field of the base block
(byte offset 36), resolve it to a cell (the source reaches the sentinel
`assert!` unguarded here), build the root Key Node view and clear it
recursively. -/
def Hive.clearVolatileSubkeys (h : Hive) (fuel : Nat) :
    List Nat × List Nat × ClearOutcome :=
  if readU32 h.baseBlock 36 = 4294967295 then (h.data, [], .panicked)
  else
    match cellRangeFromDataOffset h.data (readU32 h.baseBlock 36) with
    | .error e => (h.data, [], .err e)
    | .ok cr =>
      match KeyNodeItemRange.fromCellRange h.data cr with
      | .error e => (h.data, [], .err e)
      | .ok knr => clearNode h.data knr.headerRange.start fuel

/-- Frame predicate for the mutator: going from buffer `d0` to buffer `d1`
with written header starts `ws`, every byte outside the 4-byte
`volatile_subkey_count` fields (header offset 24) of the written records is
unchanged, and every byte inside those fields is zero. -/
def ClearFrameOn (d0 d1 : List Nat) (ws : List Nat) : Prop :=
  (∀ p, (∀ s ∈ ws, p < s + 24 ∨ s + 28 ≤ p) → d1.getD p 0 = d0.getD p 0) ∧
  (∀ s ∈ ws, ∀ j, j < 4 → d1.getD (s + 24 + j) 0 = 0)

/-- Base block of the concrete mutation witness: `root_cell_offset` 104. -/
def clearHiveBB : List Nat := List.replicate 36 0 ++ [104, 0, 0, 0]

/-- Cell area of the concrete mutation witness: a root `nk` node (cell
offset 104, volatile subkey count 7) whose `li` subkeys list (cell offset
88) holds one subkey, the terminal node at cell offset 0 (volatile subkey
count 3, sentinel subkeys list offset). -/
def clearHiveData : List Nat :=
  [168, 255, 255, 255, 110, 107, 32, 0] ++ List.replicate 20 0 ++
    [3, 0, 0, 0] ++ [255, 255, 255, 255] ++ List.replicate 40 0 ++
    [1, 0, 0, 0] ++ [65, 0, 0, 0, 0, 0, 0, 0] ++
    [240, 255, 255, 255, 108, 105, 1, 0, 0, 0, 0, 0, 0, 0, 0, 0] ++
    [168, 255, 255, 255, 110, 107, 32, 0] ++ List.replicate 20 0 ++
    [7, 0, 0, 0] ++ [88, 0, 0, 0] ++ List.replicate 40 0 ++
    [1, 0, 0, 0] ++ [82] ++ List.replicate 15 0

/-- `clearHiveData` after the root's volatile subkey count was zeroed. -/
def clearHiveData1 : List Nat :=
  [168, 255, 255, 255, 110, 107, 32, 0] ++ List.replicate 20 0 ++
    [3, 0, 0, 0] ++ [255, 255, 255, 255] ++ List.replicate 40 0 ++
    [1, 0, 0, 0] ++ [65, 0, 0, 0, 0, 0, 0, 0] ++
    [240, 255, 255, 255, 108, 105, 1, 0, 0, 0, 0, 0, 0, 0, 0, 0] ++
    [168, 255, 255, 255, 110, 107, 32, 0] ++ List.replicate 20 0 ++
    [0, 0, 0, 0] ++ [88, 0, 0, 0] ++ List.replicate 40 0 ++
    [1, 0, 0, 0] ++ [82] ++ List.replicate 15 0

/-- `clearHiveData` after both volatile subkey counts were zeroed. -/
def clearHiveData2 : List Nat :=
  [168, 255, 255, 255, 110, 107, 32, 0] ++ List.replicate 20 0 ++
    [0, 0, 0, 0] ++ [255, 255, 255, 255] ++ List.replicate 40 0 ++
    [1, 0, 0, 0] ++ [65, 0, 0, 0, 0, 0, 0, 0] ++
    [240, 255, 255, 255, 108, 105, 1, 0, 0, 0, 0, 0, 0, 0, 0, 0] ++
    [168, 255, 255, 255, 110, 107, 32, 0] ++ List.replicate 20 0 ++
    [0, 0, 0, 0] ++ [88, 0, 0, 0] ++ List.replicate 40 0 ++
    [1, 0, 0, 0] ++ [82] ++ List.replicate 15 0

end NtHive

namespace NtHive

theorem byte_subrange_eq (range : ByteRange) (byteCount : Nat) :
    byte_subrange range byteCount =
      if range.start + byteCount ≤ range.stop then
        some ⟨range.start, range.start + byteCount⟩
      else none := rfl

/-- Characterization of `cell_range_from_data_offset`: it succeeds exactly
when the 4-byte cell header is in range, the size field is non-positive
(allocated), its absolute value is a multiple of 8, and that many bytes
starting right after the header fit in the cell area; the returned range
then starts 4 bytes after the data offset and is `|size|` bytes long. -/
theorem cellRange_ok_iff (data : List Nat) (o : Nat) (r : ByteRange) :
    cellRangeFromDataOffset data o = .ok r ↔
      o + 4 ≤ data.length ∧ readI32 data o ≤ 0 ∧
      (readI32 data o).natAbs % 8 = 0 ∧
      o + 4 + (readI32 data o).natAbs ≤ data.length ∧
      r = ⟨o + 4, o + 4 + (readI32 data o).natAbs⟩ := by
  unfold cellRangeFromDataOffset
  simp only [byte_subrange_eq]
  split_ifs with h1 h2 h3 <;> simp_all
  constructor
  · intro h
    by_cases h4 : o + 4 + (readI32 data o).natAbs ≤ data.length
    · rw [if_pos h4] at h
      simp only [Except.ok.injEq] at h
      exact ⟨h4, h.symm⟩
    · rw [if_neg h4] at h
      simp at h
  · intro h
    rw [if_pos h.1]
    simp [h.2]

theorem exceptIsOk_iff {ε α : Type} (e : Except ε α) :
    exceptIsOk e = true ↔ ∃ a, e = .ok a := by
  cases e <;> simp [exceptIsOk]

/-- Claim C3, counterexample: for the cell at offset 0 of `cellAreaMinus8`
(size field `-8`), `cell_range_from_data_offset` succeeds with the range
`4..12`, whose length is the full absolute size 8, not `8 - 4` as the claim
states. -/
theorem c3_counterexample :
    cellRangeFromDataOffset cellAreaMinus8 0 = .ok ⟨4, 12⟩ ∧
      readI32 cellAreaMinus8 0 = -8 ∧
      ByteRange.len ⟨4, 12⟩ ≠ (-8 : Int).natAbs - 4 := by
  decide

/-- Claim C3 (amended): on every successful call with a non-sentinel data
offset `o`, the returned range starts 4 bytes after `o` (right after the size
field) and its length equals the full absolute value of the size field (the
code does not subtract the 4 header bytes, so the range extends 4 bytes past
the cell's own end). -/
theorem c3_cell_body_range (data : List Nat) (o : Nat) (r : ByteRange)
    (hsent : o ≠ 4294967295)
    (h : cellRangeFromDataOffset data o = .ok r) :
    r.start = o + 4 ∧ r.len = (readI32 data o).natAbs := by
  have h' := (cellRange_ok_iff data o r).mp h
  rw [h'.2.2.2.2]
  refine ⟨rfl, ?_⟩
  simp [ByteRange.len]

/-- Claim C3, witness: the amended statement evaluated on `cellAreaMinus8`. -/
theorem c3_witness :
    ByteRange.start ⟨4, 12⟩ = 0 + 4 ∧
      ByteRange.len ⟨4, 12⟩ = (readI32 cellAreaMinus8 0).natAbs :=
  c3_cell_body_range cellAreaMinus8 0 ⟨4, 12⟩ (by decide) (by decide)

/-- Claim C9 (amended): for a non-sentinel data offset,
`cell_range_from_data_offset` succeeds exactly when the 4-byte header is in
range, the size field is non-positive (allocated), its absolute value is a
multiple of 8, and that many bytes following the header lie within the cell
area.  There is no minimum-size check: a sign-flipped size smaller than 8
(such as 0) is accepted whenever these conditions hold. -/
theorem c9_cell_range_checks (data : List Nat) (o : Nat)
    (hsent : o ≠ 4294967295) :
    exceptIsOk (cellRangeFromDataOffset data o) = true ↔
      o + 4 ≤ data.length ∧ readI32 data o ≤ 0 ∧
      (readI32 data o).natAbs % 8 = 0 ∧
      o + 4 + (readI32 data o).natAbs ≤ data.length := by
  rw [exceptIsOk_iff]
  constructor
  · rintro ⟨r, hr⟩
    have h' := (cellRange_ok_iff data o r).mp hr
    exact ⟨h'.1, h'.2.1, h'.2.2.1, h'.2.2.2.1⟩
  · rintro ⟨h1, h2, h3, h4⟩
    exact ⟨⟨o + 4, o + 4 + (readI32 data o).natAbs⟩,
      (cellRange_ok_iff data o _).mpr ⟨h1, h2, h3, h4, rfl⟩⟩

/-- Claim C9, witness: the amended statement evaluated on `cellAreaMinus8`. -/
theorem c9_witness :
    exceptIsOk (cellRangeFromDataOffset cellAreaMinus8 0) = true :=
  (c9_cell_range_checks cellAreaMinus8 0 (by decide)).mpr (by decide)

/-- Claim C9, counterexample: a cell whose size field is 0 (sign-flipped size
0, which is smaller than 8) is accepted by `cell_range_from_data_offset`,
not rejected with an error as the claim states. -/
theorem c9_counterexample :
    cellRangeFromDataOffset cellAreaZeroSize 0 = .ok ⟨4, 4⟩ ∧
      (readI32 cellAreaZeroSize 0).natAbs < 8 := by
  decide

/-- Claim C4: on a buffer of 4096 zero bytes the base block parses but the
signature validation fails, and instead of returning the distinct
`InvalidFourByteSignature` error the source panics: the error path calls
`offset_of_field` on the signature field, which sits at offset 0 of the base
block, and `offset_of_field` asserts a strictly positive field offset.
`Hive.newP` models that panic as `none`. -/
theorem c4_new_invalid_signature_panics :
    Hive.newP (List.replicate 4096 0) = none ∧
      hiveSignature ((List.replicate 4096 0).take baseBlockSize) ≠
        regfSignature := by
  have hbb : (List.replicate 4096 (0 : Nat)).take baseBlockSize =
      List.replicate 4096 0 := by
    rw [baseBlockSize, List.take_replicate, Nat.min_self]
  have hbyte : ∀ i, i < 4096 → byteAt (List.replicate 4096 0) i = 0 := by
    intro i hi
    rw [byteAt, List.getD_eq_getElem?_getD, List.getElem?_replicate]
    simp [hi]
  have hsig : hiveSignature (List.replicate 4096 0) = [0, 0, 0, 0] := by
    rw [hiveSignature, hbyte 0 (by norm_num), hbyte 1 (by norm_num),
      hbyte 2 (by norm_num), hbyte 3 (by norm_num)]
  refine ⟨?_, ?_⟩
  · unfold Hive.newP Hive.withoutValidation
    rw [List.length_replicate]
    have hle : baseBlockSize ≤ 4096 := le_refl _
    rw [if_pos hle]
    have hv : (Hive.mk ((List.replicate 4096 0).take baseBlockSize)
        ((List.replicate 4096 0).drop baseBlockSize)).validateP = none := by
      unfold Hive.validateP
      show (if hiveSignature ((List.replicate 4096 0).take baseBlockSize) =
        regfSignature then _ else none) = none
      rw [hbb, hsig]
      simp [regfSignature]
    dsimp only []
    rw [hv]
  · rw [hbb, hsig]
    simp [regfSignature]

theorem sliceRange_length (data : List Nat) (r : ByteRange)
    (h : r.stop ≤ data.length) :
    (sliceRange data r).length = r.stop - r.start := by
  rw [sliceRange, List.length_take, List.length_drop]
  omega

/-- Claim C2: the no-panic guarantee fails on malformed input.  On
`keyValueCellSentinel` the `vk` record parses, its data is not inline and its
size is below the Big Data threshold, so `KeyValue::data` feeds the stored
data offset `0xFFFFFFFF` to `cell_range_from_data_offset`, whose
`assert!(data_offset != u32::MAX)` fails: the source panics instead of
returning an error value (`none` in the instrumented embedding). -/
theorem c2_data_sentinel_offset_panics :
    KeyValue.new keyValueCellSentinel ⟨4, 36⟩ = .ok keyValueAt4 ∧
      readU32 keyValueCellSentinel 12 = 4294967295 ∧
      KeyValue.dataP keyValueAt4 keyValueCellSentinel = none := by
  decide

/-- Claim C5: dispatch of `KeyValue::data` on the effective data size (the
size field with the high bit masked off).  Inline data is returned from the
data-offset field itself and must fit in 4 bytes; sizes up to 16344 resolve
the data offset to a cell and yield one contiguous slice of exactly that many
bytes; larger sizes build a Big Data iterator and never yield a `Small`
slice. -/
theorem c5_data_dispatch (data : List Nat) (kv : KeyValue)
    (hb : kv.headerRange.start + 20 ≤ data.length) :
    (2147483648 ≤ kv.dataSizeRaw data →
      (kv.dataSize data ≤ 4 →
        kv.data data = .ok (.Small (sliceRange data ⟨kv.headerRange.start + 8,
          kv.headerRange.start + 8 + kv.dataSize data⟩)) ∧
        (sliceRange data ⟨kv.headerRange.start + 8,
          kv.headerRange.start + 8 + kv.dataSize data⟩).length =
            kv.dataSize data) ∧
      (4 < kv.dataSize data →
        kv.data data = .error (.InvalidSizeField
          (baseBlockSize + kv.headerRange.start + 4) 4 (kv.dataSize data)))) ∧
    (kv.dataSizeRaw data < 2147483648 → kv.dataSize data ≤ 16344 →
      ∀ r, cellRangeFromDataOffset data
          (readU32 data (kv.headerRange.start + 8)) = .ok r →
        kv.dataSize data ≤ r.len →
        kv.data data = .ok (.Small
          (sliceRange data ⟨r.start, r.start + kv.dataSize data⟩)) ∧
        (sliceRange data ⟨r.start, r.start + kv.dataSize data⟩).length =
          kv.dataSize data) ∧
    (kv.dataSizeRaw data < 2147483648 → 16344 < kv.dataSize data →
      ∀ r st, cellRangeFromDataOffset data
          (readU32 data (kv.headerRange.start + 8)) = .ok r →
        BigDataState.new data (kv.dataSize data)
          (baseBlockSize + kv.headerRange.start + 4) r = .ok st →
        kv.data data = .ok (.Big st)) := by
  refine ⟨?_, ?_, ?_⟩
  · intro hinline
    constructor
    · intro hle
      unfold KeyValue.data
      rw [if_pos hinline, if_neg (by omega)]
      refine ⟨rfl, ?_⟩
      rw [sliceRange_length _ _ (by
        show kv.headerRange.start + 8 + kv.dataSize data ≤ data.length
        omega)]
      show kv.headerRange.start + 8 + kv.dataSize data -
        (kv.headerRange.start + 8) = kv.dataSize data
      omega
    · intro hgt
      unfold KeyValue.data
      rw [if_pos hinline, if_pos hgt]
  · intro hnotinline hle r hr hfit
    have hrok := (cellRange_ok_iff data _ r).mp hr
    unfold KeyValue.data
    rw [if_neg (by omega)]
    have hsz : kv.dataSize data ≤ bigDataSegmentSize := by
      rw [bigDataSegmentSize]; omega
    rw [if_pos hsz, hr]
    dsimp only
    rw [if_neg (by omega)]
    refine ⟨rfl, ?_⟩
    have hstop : r.start + kv.dataSize data ≤ data.length := by
      have h5 := hrok.2.2.2.1
      have h6 := hrok.2.2.2.2
      subst h6
      simp only [ByteRange.len] at hfit
      simp only at hfit ⊢
      omega
    rw [sliceRange_length _ _ (by
      show r.start + kv.dataSize data ≤ data.length
      exact hstop)]
    show r.start + kv.dataSize data - r.start = kv.dataSize data
    omega
  · intro hnotinline hgt r st hr hst
    unfold KeyValue.data
    rw [if_neg (by omega), if_neg (by rw [bigDataSegmentSize]; omega), hr]
    dsimp only
    rw [hst]

/-- Claim C5, witness: the inline case evaluated on `keyValueCellInlineSZ4`
(4 inline data bytes). -/
theorem c5_witness :
    KeyValue.data keyValueAt4 keyValueCellInlineSZ4 =
        .ok (.Small (sliceRange keyValueCellInlineSZ4 ⟨12, 12 +
          KeyValue.dataSize keyValueAt4 keyValueCellInlineSZ4⟩)) ∧
      (sliceRange keyValueCellInlineSZ4 ⟨12, 12 +
          KeyValue.dataSize keyValueAt4 keyValueCellInlineSZ4⟩).length =
        KeyValue.dataSize keyValueAt4 keyValueCellInlineSZ4 :=
  ((c5_data_dispatch keyValueCellInlineSZ4 keyValueAt4 (by decide)).1
    (by decide)).1 (by decide)

/-- Claim C7, counterexample: a `vk` record of type `RegSZ` with 2 inline
data bytes.  `dword_data` returns `InvalidDataSize`, not the distinct
`InvalidKeyValueDataType` error the claim requires as the first assertion
regardless of the stored data's size (the source checks the slice length
before the data type). -/
theorem c7_counterexample :
    KeyValue.new keyValueCellInlineSZ2 ⟨4, 36⟩ = .ok keyValueAt4 ∧
      KeyValue.dataType keyValueAt4 keyValueCellInlineSZ2 = .ok .RegSZ ∧
      KeyValue.dwordData keyValueAt4 keyValueCellInlineSZ2 =
        .error (.InvalidDataSize 0 4 2) := by
  decide

/-- Claim C7 (amended): `dword_data` (resp. `qword_data`) first retrieves the
data and checks that it is a 4-byte (resp. 8-byte) contiguous slice; only
then does it assert the data type, failing with the distinct
`InvalidKeyValueDataType` error whenever the type is neither `DWord` nor
`DWordBE` (resp. not `QWord`). -/
theorem c7_decoder_type_check (data : List Nat) (kv : KeyValue) :
    (∀ s t, kv.data data = .ok (.Small s) → s.length = 4 →
      kv.dataType data = .ok t → t ≠ .RegDWord → t ≠ .RegDWordBigEndian →
      kv.dwordData data =
        .error (.InvalidKeyValueDataType [.RegDWord, .RegDWordBigEndian] t)) ∧
    (∀ s t, kv.data data = .ok (.Small s) → s.length = 8 →
      kv.dataType data = .ok t → t ≠ .RegQWord →
      kv.qwordData data =
        .error (.InvalidKeyValueDataType [.RegQWord] t)) := by
  constructor
  · intro s t hs hl ht h1 h2
    unfold KeyValue.dwordData
    rw [hs]
    dsimp only
    rw [hl, if_neg (by omega), ht]
    cases t <;> simp_all
  · intro s t hs hl ht h1
    unfold KeyValue.qwordData
    rw [hs]
    dsimp only
    rw [hl, if_neg (by omega), ht]
    cases t <;> simp_all

/-- Claim C7, witness: the amended statement evaluated on
`keyValueCellInlineSZ4` (type `RegSZ`, 4 inline bytes). -/
theorem c7_witness :
    KeyValue.dwordData keyValueAt4 keyValueCellInlineSZ4 =
      .error (.InvalidKeyValueDataType [.RegDWord, .RegDWordBigEndian]
        .RegSZ) :=
  (c7_decoder_type_check keyValueCellInlineSZ4 keyValueAt4).1 [1, 2, 3, 4]
    .RegSZ (by decide) (by decide) (by decide) (by decide) (by decide)

theorem byte_subrange_some_iff (r : ByteRange) (c : Nat) (dr : ByteRange) :
    byte_subrange r c = some dr ↔
      r.start + c ≤ r.stop ∧ dr = ⟨r.start, r.start + c⟩ := by
  rw [byte_subrange_eq]
  split_ifs with h
  · simp [h, eq_comm]
  · simp [h]

theorem collect_eq_nil (data : List Nat) (s : BigDataState)
    (h : (BigDataState.next data s).1 = none) :
    BigDataState.collect data s = [] := by
  rw [BigDataState.collect]
  split
  · rfl
  · next r s' heq =>
    rw [heq] at h
    simp at h

theorem collect_eq_cons (data : List Nat) (s : BigDataState)
    (r : Except NtHiveError (List Nat)) (s' : BigDataState)
    (h : BigDataState.next data s = (some r, s')) :
    BigDataState.collect data s = r :: BigDataState.collect data s' := by
  rw [BigDataState.collect]
  split
  · next heq =>
    rw [heq] at h
    simp at h
  · next r2 s2 heq =>
    rw [heq] at h
    simp only [Prod.mk.injEq, Option.some.injEq] at h
    rw [h.1, h.2]

theorem segmentLens_zero : segmentLens 0 = [] := by
  rw [segmentLens]
  simp

theorem segmentLens_cons (n : Nat) (h : 0 < n) :
    segmentLens n = min n bigDataSegmentSize ::
      segmentLens (n - min n bigDataSegmentSize) := by
  rw [segmentLens, if_neg (by omega)]
  by_cases h1 : n ≤ bigDataSegmentSize
  · rw [if_pos h1]
    have hmin : min n bigDataSegmentSize = n := by omega
    rw [hmin]
    have : n - n = 0 := by omega
    rw [this, segmentLens_zero]
  · rw [if_neg h1]
    have hmin : min n bigDataSegmentSize = bigDataSegmentSize := by omega
    rw [hmin]

theorem segmentLens_sum (n : Nat) : (segmentLens n).sum = n := by
  induction n using Nat.strong_induction_on with
  | _ n ih =>
    by_cases h0 : n = 0
    · rw [h0, segmentLens_zero]
      rfl
    · rw [segmentLens_cons n (by omega), List.sum_cons,
        ih (n - min n bigDataSegmentSize) (by
          rw [bigDataSegmentSize]
          omega)]
      have : min n bigDataSegmentSize ≤ n := by omega
      omega

theorem segmentLens_length (n : Nat) :
    (segmentLens n).length = (n + 16343) / 16344 := by
  induction n using Nat.strong_induction_on with
  | _ n ih =>
    by_cases h0 : n = 0
    · rw [h0, segmentLens_zero]
      rfl
    · rw [segmentLens_cons n (by omega), List.length_cons,
        ih (n - min n bigDataSegmentSize) (by
          rw [bigDataSegmentSize]
          omega)]
      rw [bigDataSegmentSize]
      omega

theorem segmentLens_getD (n : Nat) :
    ∀ i, i + 1 < (segmentLens n).length → (segmentLens n).getD i 0 = 16344 := by
  induction n using Nat.strong_induction_on with
  | _ n ih =>
    intro i hi
    by_cases h0 : n = 0
    · rw [h0, segmentLens_zero] at hi
      simp at hi
    · by_cases h1 : n ≤ bigDataSegmentSize
      · rw [segmentLens_cons n (by omega)] at hi
        have hmin : min n bigDataSegmentSize = n := by omega
        rw [hmin] at hi
        have : n - n = 0 := by omega
        rw [this, segmentLens_zero] at hi
        simp at hi
      · have hmin : min n bigDataSegmentSize = bigDataSegmentSize := by omega
        rw [segmentLens_cons n (by omega), hmin] at hi ⊢
        match i with
        | 0 => rw [List.getD_cons_zero, bigDataSegmentSize]
        | j + 1 =>
          rw [List.getD_cons_succ]
          apply ih (n - bigDataSegmentSize) (by rw [bigDataSegmentSize]; omega)
          rw [List.length_cons] at hi
          omega

/-- Core of claim C6: when the iterator state holds `n` bytes to yield and at
least `ceil(n / 16344)` segment-list items, and every yielded item is `Ok`,
the yielded slice lengths are exactly `segmentLens n`: full 16344-byte
segments followed by the remainder. -/
theorem collect_map_segLenOf (data : List Nat) :
    ∀ n s, s.bytesLeft = n →
      n ≤ ((s.itemsStop - s.itemsStart) / 4) * bigDataSegmentSize →
      (∀ x ∈ BigDataState.collect data s, exceptIsOk x = true) →
      (BigDataState.collect data s).map segLenOf = segmentLens n := by
  intro n
  induction n using Nat.strong_induction_on with
  | _ n ih =>
    intro s hbl hbound hok
    subst hbl
    by_cases h0 : s.bytesLeft = 0
    · rw [collect_eq_nil data s (by
        unfold BigDataState.next
        rw [h0]
        simp)]
      rw [h0, segmentLens_zero]
      rfl
    · have hbtr0 : ¬min s.bytesLeft bigDataSegmentSize = 0 := by
        rw [bigDataSegmentSize]
        omega
      have havail : s.itemsStart + 4 ≤ s.itemsStop := by
        rw [bigDataSegmentSize] at hbound
        omega
      rcases hc : cellRangeFromDataOffset data (readU32 data s.itemsStart) with
        e | cr
      · have hnext : BigDataState.next data s = (some (.error e),
            ⟨s.itemsStart + 4, s.itemsStop,
             s.bytesLeft - min s.bytesLeft bigDataSegmentSize⟩) := by
          unfold BigDataState.next
          rw [if_neg hbtr0, if_pos havail, hc]
        have hmem := hok (.error e) (by
          rw [collect_eq_cons data s _ _ hnext]
          exact List.mem_cons_self _ _)
        simp [exceptIsOk] at hmem
      · rcases hb : byte_subrange cr (min s.bytesLeft bigDataSegmentSize) with
          _ | dr
        · have hnext : BigDataState.next data s = (some (.error
              (.InvalidDataSize (offset_of_data_offset cr.start)
                (min s.bytesLeft bigDataSegmentSize) cr.len)),
              ⟨s.itemsStart + 4, s.itemsStop,
               s.bytesLeft - min s.bytesLeft bigDataSegmentSize⟩) := by
            unfold BigDataState.next
            rw [if_neg hbtr0, if_pos havail, hc]
            dsimp only
            rw [hb]
          have hmem := hok _ (by
            rw [collect_eq_cons data s _ _ hnext]
            exact List.mem_cons_self _ _)
          simp [exceptIsOk] at hmem
        · have hnext : BigDataState.next data s =
              (some (.ok (sliceRange data dr)),
              ⟨s.itemsStart + 4, s.itemsStop,
               s.bytesLeft - min s.bytesLeft bigDataSegmentSize⟩) := by
            unfold BigDataState.next
            rw [if_neg hbtr0, if_pos havail, hc]
            dsimp only
            rw [hb]
          obtain ⟨hdr1, hdr2⟩ := (byte_subrange_some_iff cr _ dr).mp hb
          have hcok := (cellRange_ok_iff data _ cr).mp hc
          have h5 := hcok.2.2.2.1
          have h6 := hcok.2.2.2.2
          subst h6
          simp only at hdr1 h5
          have hstople : dr.stop ≤ data.length := by
            rw [hdr2]
            simp only
            omega
          have hslicelen : (sliceRange data dr).length =
              min s.bytesLeft bigDataSegmentSize := by
            rw [sliceRange_length data dr hstople, hdr2]
            simp only
            omega
          rw [collect_eq_cons data s _ _ hnext, List.map_cons]
          have htail := ih (s.bytesLeft - min s.bytesLeft bigDataSegmentSize)
            (by rw [bigDataSegmentSize]; omega)
            ⟨s.itemsStart + 4, s.itemsStop,
             s.bytesLeft - min s.bytesLeft bigDataSegmentSize⟩
            rfl
            (by
              show s.bytesLeft - min s.bytesLeft bigDataSegmentSize ≤
                ((s.itemsStop - (s.itemsStart + 4)) / 4) * bigDataSegmentSize
              rw [bigDataSegmentSize] at hbound ⊢
              omega)
            (by
              intro x hx
              exact hok x (by
                rw [collect_eq_cons data s _ _ hnext]
                exact List.mem_cons_of_mem _ hx))
          rw [segmentLens_cons s.bytesLeft (by omega)]
          rw [htail]
          have hhead : segLenOf (.ok (sliceRange data dr)) =
              min s.bytesLeft bigDataSegmentSize := hslicelen
          rw [hhead]

/-- Claim C6: for a value of size `N > 16344` whose Big Data structure passes
`BigDataSlices::new` (which enforces `segment_count * 16344 >= N`) and whose
segment cells all resolve (every yielded item is `Ok`), the iterator yields
`ceil(N / 16344)` segments whose lengths are 16344 for every segment but the
last, with the last holding the remainder, so the yielded bytes total exactly
`N`. -/
theorem c6_big_data_round_trip (data : List Nat) (dataSize dsOff : Nat)
    (hcr : ByteRange) (s : BigDataState)
    (hnew : BigDataState.new data dataSize dsOff hcr = .ok s)
    (hbig : bigDataSegmentSize < dataSize)
    (hok : ∀ x ∈ BigDataState.collect data s, exceptIsOk x = true) :
    (BigDataState.collect data s).map segLenOf = segmentLens dataSize ∧
      ((BigDataState.collect data s).map segLenOf).sum = dataSize ∧
      (BigDataState.collect data s).length = (dataSize + 16343) / 16344 ∧
      (∀ i, i + 1 < (BigDataState.collect data s).length →
        ((BigDataState.collect data s).map segLenOf).getD i 0 = 16344) := by
  have hinv : s.bytesLeft = dataSize ∧
      dataSize ≤ ((s.itemsStop - s.itemsStart) / 4) * bigDataSegmentSize := by
    unfold BigDataState.new at hnew
    rcases h8 : byte_subrange hcr 8 with _ | hr
    · rw [h8] at hnew
      cases hnew
    · rw [h8] at hnew
      dsimp only at hnew
      by_cases hsig : twoByteSignature data hr.start = dbSignatureBytes
      · rw [if_pos hsig] at hnew
        by_cases hcnt : readU16 data (hr.start + 2) * bigDataSegmentSize <
            dataSize
        · rw [if_pos hcnt] at hnew
          cases hnew
        · rw [if_neg hcnt] at hnew
          rcases hlc : cellRangeFromDataOffset data
              (readU32 data (hr.start + 4)) with e | lr
          · rw [hlc] at hnew
            cases hnew
          · rw [hlc] at hnew
            dsimp only at hnew
            rcases hit : byte_subrange lr (readU16 data (hr.start + 2) * 4)
              with _ | items
            · rw [hit] at hnew
              cases hnew
            · rw [hit] at hnew
              simp only [Except.ok.injEq] at hnew
              obtain ⟨hd1, hd2⟩ := (byte_subrange_some_iff lr _ items).mp hit
              rw [← hnew]
              constructor
              · rfl
              · show dataSize ≤ ((items.stop - items.start) / 4) *
                  bigDataSegmentSize
                rw [hd2]
                show dataSize ≤ ((lr.start + readU16 data (hr.start + 2) * 4 -
                  lr.start) / 4) * bigDataSegmentSize
                rw [bigDataSegmentSize] at hcnt ⊢
                omega
      · rw [if_neg hsig] at hnew
        cases hnew
  have hmain := collect_map_segLenOf data dataSize s hinv.1 hinv.2 hok
  refine ⟨hmain, ?_, ?_, ?_⟩
  · rw [hmain, segmentLens_sum]
  · have := congrArg List.length hmain
    rw [List.length_map, segmentLens_length] at this
    exact this
  · intro i hi
    rw [hmain]
    apply segmentLens_getD
    have := congrArg List.length hmain
    rw [List.length_map] at this
    omega

theorem bigSegPrefix_length : bigSegPrefix.length = 36 := by decide

theorem bigSegData_length : bigSegData.length = 16388 := by
  rw [bigSegData, List.length_append, List.length_replicate,
    bigSegPrefix_length]

theorem byteAt_bigSegData (i : Nat) (h : i < 36) :
    byteAt bigSegData i = byteAt bigSegPrefix i := by
  rw [bigSegData, byteAt, byteAt,
    List.getD_append _ _ _ _ (by rw [bigSegPrefix_length]; omega)]

theorem readU32_bigSegData (i : Nat) (h : i + 4 ≤ 36) :
    readU32 bigSegData i = readU32 bigSegPrefix i := by
  rw [readU32, readU32, byteAt_bigSegData i (by omega),
    byteAt_bigSegData (i + 1) (by omega), byteAt_bigSegData (i + 2) (by omega),
    byteAt_bigSegData (i + 3) (by omega)]

theorem readU16_bigSegData (i : Nat) (h : i + 2 ≤ 36) :
    readU16 bigSegData i = readU16 bigSegPrefix i := by
  rw [readU16, readU16, byteAt_bigSegData i (by omega),
    byteAt_bigSegData (i + 1) (by omega)]

theorem bigSegData_cell16 :
    cellRangeFromDataOffset bigSegData 16 = .ok ⟨20, 36⟩ := by
  have hu : readU32 bigSegData 16 = 4294967280 := by
    rw [readU32_bigSegData 16 (by omega)]
    decide
  have hi : readI32 bigSegData 16 = -16 := by
    rw [readI32, hu]
    norm_num
  apply (cellRange_ok_iff bigSegData 16 ⟨20, 36⟩).mpr
  rw [hi, bigSegData_length]
  norm_num

theorem bigSegData_cell32 :
    cellRangeFromDataOffset bigSegData 32 = .ok ⟨36, 16388⟩ := by
  have hu : readU32 bigSegData 32 = 4294950944 := by
    rw [readU32_bigSegData 32 (by omega)]
    decide
  have hi : readI32 bigSegData 32 = -16352 := by
    rw [readI32, hu]
    norm_num
  apply (cellRange_ok_iff bigSegData 32 ⟨36, 16388⟩).mpr
  rw [hi, bigSegData_length]
  norm_num

theorem bigSegData_new :
    BigDataState.new bigSegData 16345 0 ⟨4, 20⟩ = .ok ⟨20, 28, 16345⟩ := by
  unfold BigDataState.new
  rw [show byte_subrange ⟨4, 20⟩ 8 = some ⟨4, 12⟩ from rfl]
  dsimp only
  rw [show twoByteSignature bigSegData 4 = dbSignatureBytes from (by
    rw [twoByteSignature, byteAt_bigSegData 4 (by omega),
      byteAt_bigSegData 5 (by omega)]
    decide)]
  rw [if_pos rfl]
  rw [readU16_bigSegData 6 (by omega)]
  rw [show readU16 bigSegPrefix 6 = 2 from by decide]
  rw [if_neg (by rw [bigDataSegmentSize]; omega)]
  rw [readU32_bigSegData 8 (by omega)]
  rw [show readU32 bigSegPrefix 8 = 16 from by decide]
  rw [bigSegData_cell16]
  dsimp only
  rw [show byte_subrange ⟨20, 36⟩ (2 * 4) = some ⟨20, 28⟩ from rfl]

theorem bigSegData_next1 :
    BigDataState.next bigSegData ⟨20, 28, 16345⟩ =
      (some (.ok (sliceRange bigSegData ⟨36, 16380⟩)), ⟨24, 28, 1⟩) := by
  unfold BigDataState.next
  dsimp only
  rw [if_neg (by decide)]
  rw [if_pos (by decide)]
  rw [show readU32 bigSegData 20 = 32 from (by
    rw [readU32_bigSegData 20 (by omega)]
    decide)]
  rw [bigSegData_cell32]
  dsimp only
  rw [show (min 16345 bigDataSegmentSize) = 16344 from (by decide)]
  rw [show byte_subrange ⟨36, 16388⟩ 16344 = some ⟨36, 16380⟩ from rfl]

theorem bigSegData_next2 :
    BigDataState.next bigSegData ⟨24, 28, 1⟩ =
      (some (.ok (sliceRange bigSegData ⟨36, 37⟩)), ⟨28, 28, 0⟩) := by
  unfold BigDataState.next
  dsimp only
  rw [if_neg (by decide)]
  rw [if_pos (by decide)]
  rw [show readU32 bigSegData 24 = 32 from (by
    rw [readU32_bigSegData 24 (by omega)]
    decide)]
  rw [bigSegData_cell32]
  dsimp only
  rw [show (min 1 bigDataSegmentSize) = 1 from (by decide)]
  rw [show byte_subrange ⟨36, 16388⟩ 1 = some ⟨36, 37⟩ from rfl]

theorem bigSegData_collect :
    BigDataState.collect bigSegData ⟨20, 28, 16345⟩ =
      [.ok (sliceRange bigSegData ⟨36, 16380⟩),
       .ok (sliceRange bigSegData ⟨36, 37⟩)] := by
  rw [collect_eq_cons _ _ _ _ bigSegData_next1,
    collect_eq_cons _ _ _ _ bigSegData_next2,
    collect_eq_nil _ _ (by
      unfold BigDataState.next
      simp)]

set_option maxRecDepth 20000 in
/-- Claim C10, counterexample: in `valuesListHive` the first values-list
entry parses as a `vk` record but its name cannot be loaded (name length 255
exceeds the cell), and the second entry is named `x`.  `value("x")` stops at
the first entry and returns it as `Ok` — not that entry's error as the claim
states — even though a matching value follows. -/
theorem c10_counterexample :
    KeyNodeItemRange.fromCellRange valuesListHive ⟨4, 92⟩ =
        .ok valuesListNode ∧
      KeyNodeItemRange.valueFn valuesListHive eqNameX valuesListNode =
        some (.ok ⟨⟨108, 128⟩, ⟨128, 140⟩⟩) ∧
      KeyValue.name ⟨⟨108, 128⟩, ⟨128, 140⟩⟩ valuesListHive =
        .error (.InvalidSizeField 4206 255 12) ∧
      KeyValue.name ⟨⟨140, 160⟩, ⟨160, 172⟩⟩ valuesListHive =
        .ok ⟨true, [120]⟩ ∧
      eqNameX ⟨true, [120]⟩ = true := by
  refine ⟨by decide, ?_, by decide, by decide, by decide⟩
  unfold KeyNodeItemRange.valueFn
  rw [if_neg (by decide)]
  rw [show cellRangeFromDataOffset valuesListHive
    (readU32 valuesListHive (valuesListNode.headerRange.start + 40)) =
    .ok ⟨92, 108⟩ from by decide]
  dsimp only
  rw [show byte_subrange ⟨92, 108⟩
    (readU32 valuesListHive (valuesListNode.headerRange.start + 36) * 4) =
    some ⟨92, 100⟩ from by decide]
  dsimp only
  rw [valueScan, dif_pos (by decide)]
  rw [show cellRangeFromDataOffset valuesListHive
    (readU32 valuesListHive 92) = .ok ⟨108, 140⟩ from by decide]
  dsimp only
  rw [show KeyValue.new valuesListHive ⟨108, 140⟩ =
    .ok ⟨⟨108, 128⟩, ⟨128, 140⟩⟩ from by decide]
  dsimp only
  rw [show KeyValue.name ⟨⟨108, 128⟩, ⟨128, 140⟩⟩ valuesListHive =
    .error (.InvalidSizeField 4206 255 12) from by decide]

/-- Claim C10 (amended): `value(name)` scans the values list in stored order
and stops at the first entry that fails to resolve (returning that entry's
error), that has an unreadable name (returning that entry itself as `Ok`,
not an error), or whose name matches; when no entry stops the scan it
returns "not found".  `scanStop` is the per-entry stopping behaviour; the
third part ties the scan to `value` via the resolved values list. -/
theorem c10_value_first_stop (data : List Nat) (eqName : NameStr → Bool) :
    (∀ i pos stop r, (∀ j, j < i → scanStop data eqName (pos + 4 * j) = none) →
      pos + 4 * i + 4 ≤ stop →
      scanStop data eqName (pos + 4 * i) = some r →
      valueScan data eqName pos stop = some r) ∧
    (∀ pos stop, (∀ j, pos + 4 * j + 4 ≤ stop →
        scanStop data eqName (pos + 4 * j) = none) →
      valueScan data eqName pos stop = none) ∧
    (∀ knr cr items, readU32 data (knr.headerRange.start + 40) ≠ 4294967295 →
      cellRangeFromDataOffset data
        (readU32 data (knr.headerRange.start + 40)) = .ok cr →
      byte_subrange cr (readU32 data (knr.headerRange.start + 36) * 4) =
        some items →
      KeyNodeItemRange.valueFn data eqName knr =
        valueScan data eqName items.start items.stop) := by
  have hstep : ∀ pos stop, pos + 4 ≤ stop →
      (∀ r, scanStop data eqName pos = some r →
        valueScan data eqName pos stop = some r) ∧
      (scanStop data eqName pos = none →
        valueScan data eqName pos stop =
          valueScan data eqName (pos + 4) stop) := by
    intro pos stop hlt
    rw [valueScan, dif_pos hlt]
    unfold scanStop
    rcases hc : cellRangeFromDataOffset data (readU32 data pos) with e | cr
    · exact ⟨fun r hr => by rw [← Option.some_inj.mp hr], fun hr => by
        cases hr⟩
    · dsimp only
      rcases hk : KeyValue.new data cr with e | kv
      · exact ⟨fun r hr => by rw [← Option.some_inj.mp hr], fun hr => by
          cases hr⟩
      · dsimp only
        rcases hn : KeyValue.name kv data with e | nm
        · exact ⟨fun r hr => by rw [← Option.some_inj.mp hr], fun hr => by
            cases hr⟩
        · dsimp only
          by_cases he : eqName nm
          · refine ⟨fun r hr => ?_, fun hr => ?_⟩
            · rw [if_pos he] at hr ⊢
              exact hr
            · rw [if_pos he] at hr
              cases hr
          · refine ⟨fun r hr => ?_, fun hr => ?_⟩
            · rw [if_neg he] at hr
              cases hr
            · rw [if_neg he]
  refine ⟨?_, ?_, ?_⟩
  · intro i
    induction i with
    | zero =>
      intro pos stop r hprev hin hstop
      simp only [Nat.mul_zero, Nat.add_zero] at hin hstop
      exact (hstep pos stop hin).1 r hstop
    | succ i ih =>
      intro pos stop r hprev hin hstop
      have h0 : scanStop data eqName pos = none := by
        have := hprev 0 (by omega)
        simpa using this
      have hlt : pos + 4 ≤ stop := by omega
      rw [(hstep pos stop hlt).2 h0]
      apply ih (pos + 4) stop r
      · intro j hj
        have := hprev (j + 1) (by omega)
        have harith : pos + 4 * (j + 1) = pos + 4 + 4 * j := by omega
        rwa [harith] at this
      · omega
      · have harith : pos + 4 * (i + 1) = pos + 4 + 4 * i := by omega
        rwa [harith] at hstop
  · intro pos stop
    have hgen : ∀ fuel pos, stop - pos ≤ fuel →
        (∀ j, pos + 4 * j + 4 ≤ stop →
          scanStop data eqName (pos + 4 * j) = none) →
        valueScan data eqName pos stop = none := by
      intro fuel
      induction fuel with
      | zero =>
        intro pos hf hall
        rw [valueScan, dif_neg (by omega)]
      | succ fuel ih =>
        intro pos hf hall
        by_cases hlt : pos + 4 ≤ stop
        · have h0 : scanStop data eqName pos = none := by
            have := hall 0 (by omega)
            simpa using this
          rw [(hstep pos stop hlt).2 h0]
          apply ih (pos + 4) (by omega)
          intro j hj
          have := hall (j + 1) (by omega)
          have harith : pos + 4 * (j + 1) = pos + 4 + 4 * j := by omega
          rwa [harith] at this
        · rw [valueScan, dif_neg hlt]
    exact hgen (stop - pos) pos (by omega)
  · intro knr cr items hsent hcr hitems
    unfold KeyNodeItemRange.valueFn
    rw [if_neg hsent, hcr]
    dsimp only
    rw [hitems]

set_option maxRecDepth 20000 in
/-- Claim C10, witness: the amended statement evaluated on `valuesListHive`,
where the scan stops at the very first entry (unreadable name) and yields it
as `Ok`. -/
theorem c10_witness :
    valueScan valuesListHive eqNameX 92 100 =
      some (.ok ⟨⟨108, 128⟩, ⟨128, 140⟩⟩) :=
  (c10_value_first_stop valuesListHive eqNameX).1 0 92 100
    (.ok ⟨⟨108, 128⟩, ⟨128, 140⟩⟩)
    (by intro j hj; exact absurd hj (Nat.not_lt_zero _))
    (by decide) (by decide)

theorem leafProbe_ok_name (data : List Nat) (cmp : NameStr → Option Ordering)
    (items : LeafItemRanges) (i : Nat) (k : KeyNodeItemRange) (o : Ordering)
    (h : leafProbe data cmp items i = some (.ok (k, o))) :
    ∃ nm, KeyNodeItemRange.name data k = .ok nm ∧ cmp nm = some o := by
  unfold leafProbe at h
  rcases hn : items.nth i with _ | lir <;> rw [hn] at h
  · cases h
  · dsimp only at h
    rcases hf : KeyNodeItemRange.fromLeafItemRange data lir with e | k' <;>
      rw [hf] at h
    · cases h
    · dsimp only at h
      rcases hm : KeyNodeItemRange.name data k' with e | nm <;> rw [hm] at h
      · cases h
      · dsimp only at h
        rcases hc : cmp nm with _ | o' <;> rw [hc] at h
        · cases h
        · simp only [Option.some.injEq, Except.ok.injEq, Prod.mk.injEq] at h
          obtain ⟨hk, ho⟩ := h
          subst hk
          subst ho
          exact ⟨nm, hm, hc⟩

theorem leafSearchGo_none (data : List Nat) (cmp : NameStr → Option Ordering)
    (items : LeafItemRanges) (hall : LeafAllOk data cmp items)
    (hnomatch : ∀ i k, i < items.len →
      leafProbe data cmp items i ≠ some (.ok (k, .eq))) :
    ∀ fuel left right, (right + 1 - left).toNat ≤ fuel → 0 ≤ left →
      right < (items.len : Int) →
      leafSearchGo data cmp items left right = none := by
  intro fuel
  induction fuel with
  | zero =>
    intro left right hf h0 hr
    rw [leafSearchGo, dif_neg (by omega)]
  | succ fuel ih =>
    intro left right hf h0 hr
    by_cases hlr : left ≤ right
    · rw [leafSearchGo, dif_pos hlr]
      have hmidlt : ((left + right) / 2).toNat < items.len := by omega
      obtain ⟨k, o, hp⟩ := hall _ hmidlt
      rw [hp]
      cases o with
      | eq => exact absurd hp (hnomatch _ k hmidlt)
      | lt =>
        dsimp only
        exact ih _ _ (by omega) (by omega) hr
      | gt =>
        dsimp only
        exact ih _ _ (by omega) h0 (by omega)
    · rw [leafSearchGo, dif_neg hlr]

theorem leafSearchGo_found (data : List Nat) (cmp : NameStr → Option Ordering)
    (items : LeafItemRanges) (hall : LeafAllOk data cmp items)
    (hsort : LeafSorted data cmp items) :
    ∀ fuel left right, (right + 1 - left).toNat ≤ fuel → 0 ≤ left →
      right < (items.len : Int) →
      (∀ i k, i < items.len →
        leafProbe data cmp items i = some (.ok (k, .eq)) →
        left ≤ (i : Int) ∧ (i : Int) ≤ right) →
      (∃ i, i < items.len ∧
        ∃ k, leafProbe data cmp items i = some (.ok (k, .eq))) →
      ∃ k, (∃ i, i < items.len ∧
          leafProbe data cmp items i = some (.ok (k, .eq))) ∧
        leafSearchGo data cmp items left right = some (.ok k) := by
  intro fuel
  induction fuel with
  | zero =>
    intro left right hf h0 hr hinv hm
    obtain ⟨i0, hi0, k0, hp0⟩ := hm
    have := hinv i0 k0 hi0 hp0
    omega
  | succ fuel ih =>
    intro left right hf h0 hr hinv hm
    obtain ⟨i0, hi0, k0, hp0⟩ := hm
    have hbnd := hinv i0 k0 hi0 hp0
    have hlr : left ≤ right := by omega
    rw [leafSearchGo, dif_pos hlr]
    have hmidlt : ((left + right) / 2).toNat < items.len := by omega
    obtain ⟨k, o, hp⟩ := hall _ hmidlt
    rw [hp]
    cases o with
    | eq => exact ⟨k, ⟨_, hmidlt, hp⟩, rfl⟩
    | lt =>
      dsimp only
      apply ih _ _ (by omega) (by omega) hr
      · intro i k' hi hpi
        have hold := hinv i k' hi hpi
        refine ⟨?_, hold.2⟩
        by_contra hcon
        rcases Nat.lt_or_ge i (((left + right) / 2).toNat) with hlt | hge
        · have := hsort i _ k' .eq k .lt hlt hmidlt hpi hp (by
            intro hcon2
            cases hcon2)
          cases this
        · have hieq : i = ((left + right) / 2).toNat := by omega
          rw [hieq] at hpi
          rw [hpi] at hp
          simp at hp
      · exact ⟨i0, hi0, k0, hp0⟩
    | gt =>
      dsimp only
      apply ih _ _ (by omega) h0 (by omega)
      · intro i k' hi hpi
        have hold := hinv i k' hi hpi
        refine ⟨hold.1, ?_⟩
        by_contra hcon
        rcases Nat.lt_or_ge (((left + right) / 2).toNat) i with hlt | hge
        · have := hsort _ i k .gt k' .eq hlt hi hp hpi (by
            intro hcon2
            cases hcon2)
          cases this
        · have hieq : i = ((left + right) / 2).toNat := by omega
          rw [hieq] at hpi
          rw [hpi] at hp
          simp at hp
      · exact ⟨i0, hi0, k0, hp0⟩

theorem binarySearchLeaf_found (data : List Nat)
    (cmp : NameStr → Option Ordering) (items : LeafItemRanges)
    (hall : LeafAllOk data cmp items) (hsort : LeafSorted data cmp items)
    (hm : LeafHasMatch data cmp items) :
    ∃ k, (∃ i, i < items.len ∧
        leafProbe data cmp items i = some (.ok (k, .eq))) ∧
      binarySearchSubkeyInLeaf data cmp items = some (.ok k) := by
  obtain ⟨i0, hi0, k0, hp0⟩ := hm
  exact leafSearchGo_found data cmp items hall hsort
    (((items.len : Int) - 1) + 1 - 0).toNat 0 ((items.len : Int) - 1)
    (by omega) (by omega) (by omega)
    (fun i k hi _ => by omega)
    ⟨i0, hi0, k0, hp0⟩

theorem binarySearchLeaf_none (data : List Nat)
    (cmp : NameStr → Option Ordering) (items : LeafItemRanges)
    (hall : LeafAllOk data cmp items)
    (hnomatch : ∀ i k, i < items.len →
      leafProbe data cmp items i ≠ some (.ok (k, .eq))) :
    binarySearchSubkeyInLeaf data cmp items = none :=
  leafSearchGo_none data cmp items hall hnomatch
    (((items.len : Int) - 1) + 1 - 0).toNat 0 ((items.len : Int) - 1)
    (by omega) (by omega) (by omega)

theorem fromIRR_ok_len_pos (data : List Nat) (irr : ByteRange)
    (L : LeafItemRanges)
    (h : LeafItemRanges.fromIndexRootItemRange data irr = .ok L) :
    0 < L.len := by
  unfold LeafItemRanges.fromIndexRootItemRange at h
  rcases hc : cellRangeFromDataOffset data (readU32 data irr.start) with
    e | cr <;> rw [hc] at h
  · cases h
  · dsimp only at h
    by_cases h4 : cr.stop < cr.start + 4
    · rw [if_pos h4] at h
      cases h
    · rw [if_neg h4] at h
      rcases hs : LeafType.fromSignature (twoByteSignature data cr.start) with
        _ | lt2 <;> rw [hs] at h
      · cases h
      · dsimp only at h
        by_cases h0 : readU16 data (cr.start + 2) = 0
        · rw [if_pos h0] at h
          cases h
        · rw [if_neg h0] at h
          unfold LeafItemRanges.new at h
          rcases hb : byte_subrange ⟨cr.start + 4, cr.stop⟩
              (readU16 data (cr.start + 2) * lt2.itemSize) with _ | ir2 <;>
            rw [hb] at h
          · cases h
          · simp only [Except.ok.injEq] at h
            obtain ⟨hb1, hb2⟩ := (byte_subrange_some_iff _ _ _).mp hb
            subst h
            subst hb2
            show 0 < LeafItemRanges.len _
            simp only [LeafItemRanges.len]
            cases lt2 <;> simp only [LeafType.itemSize] <;> omega

theorem irLeafAt_inv (data : List Nat) (irItems : IndexRootItemRanges)
    (a : Nat) (L : LeafItemRanges)
    (h : irLeafAt data irItems a = some (.ok L)) :
    ∃ irr, irItems.nth a = some irr ∧
      LeafItemRanges.fromIndexRootItemRange data irr = .ok L := by
  unfold irLeafAt at h
  rcases hn : irItems.nth a with _ | irr <;> rw [hn] at h
  · cases h
  · simp only [Option.some.injEq] at h
    exact ⟨irr, rfl, h⟩

theorem irSearchGo_none (data : List Nat) (cmp : NameStr → Option Ordering)
    (irItems : IndexRootItemRanges) (hall : IRAllOk data cmp irItems)
    (hnomatch : ∀ a L i k, a < irItems.len →
      irLeafAt data irItems a = some (.ok L) → i < L.len →
      leafProbe data cmp L i ≠ some (.ok (k, .eq))) :
    ∀ fuel left right, (right + 1 - left).toNat ≤ fuel → 0 ≤ left →
      right < (irItems.len : Int) →
      indexRootSearchGo data cmp irItems left right = none := by
  intro fuel
  induction fuel with
  | zero =>
    intro left right hf h0 hr
    rw [indexRootSearchGo, dif_neg (by omega)]
  | succ fuel ih =>
    intro left right hf h0 hr
    by_cases hlr : left ≤ right
    · rw [indexRootSearchGo, dif_pos hlr]
      have hmidlt : ((left + right) / 2).toNat < irItems.len := by omega
      obtain ⟨L, hL, hLall⟩ := hall _ hmidlt
      obtain ⟨irr, hn, hfr⟩ := irLeafAt_inv data irItems _ L hL
      rw [hn]
      dsimp only
      rw [hfr]
      dsimp only
      have hLpos := fromIRR_ok_len_pos data irr L hfr
      obtain ⟨k0, o0, hp0⟩ := hLall 0 hLpos
      rw [hp0]
      cases o0 with
      | eq => exact absurd hp0 (hnomatch _ L 0 k0 hmidlt hL hLpos)
      | gt =>
        dsimp only
        exact ih _ _ (by omega) h0 (by omega)
      | lt =>
        dsimp only
        obtain ⟨kl, ol, hpl⟩ := hLall (L.len - 1) (by omega)
        rw [hpl]
        cases ol with
        | eq => exact absurd hpl (hnomatch _ L (L.len - 1) kl hmidlt hL
            (by omega))
        | lt =>
          dsimp only
          exact ih _ _ (by omega) (by omega) hr
        | gt =>
          dsimp only
          exact binarySearchLeaf_none data cmp L hLall
            (fun i k hi => hnomatch _ L i k hmidlt hL hi)
    · rw [indexRootSearchGo, dif_neg hlr]

theorem irSearchGo_found (data : List Nat) (cmp : NameStr → Option Ordering)
    (irItems : IndexRootItemRanges) (hall : IRAllOk data cmp irItems)
    (hsort : IRSorted data cmp irItems) :
    ∀ fuel left right, (right + 1 - left).toNat ≤ fuel → 0 ≤ left →
      right < (irItems.len : Int) →
      (∀ a L i k, a < irItems.len → irLeafAt data irItems a = some (.ok L) →
        i < L.len → leafProbe data cmp L i = some (.ok (k, .eq)) →
        left ≤ (a : Int) ∧ (a : Int) ≤ right) →
      (∃ a, a < irItems.len ∧ ∃ L, irLeafAt data irItems a = some (.ok L) ∧
        ∃ i, i < L.len ∧ ∃ k, leafProbe data cmp L i = some (.ok (k, .eq))) →
      ∃ k, (∃ a, a < irItems.len ∧
          ∃ L, irLeafAt data irItems a = some (.ok L) ∧
          ∃ i, i < L.len ∧ leafProbe data cmp L i = some (.ok (k, .eq))) ∧
        indexRootSearchGo data cmp irItems left right = some (.ok k) := by
  intro fuel
  induction fuel with
  | zero =>
    intro left right hf h0 hr hinv hm
    obtain ⟨a0, ha0, L0, hL0, i0, hi0, k0, hp0⟩ := hm
    have := hinv a0 L0 i0 k0 ha0 hL0 hi0 hp0
    omega
  | succ fuel ih =>
    intro left right hf h0 hr hinv hm
    obtain ⟨a0, ha0, L0, hL0, i0, hi0, k0, hp0⟩ := hm
    have hbnd := hinv a0 L0 i0 k0 ha0 hL0 hi0 hp0
    have hlr : left ≤ right := by omega
    rw [indexRootSearchGo, dif_pos hlr]
    have hmidlt : ((left + right) / 2).toNat < irItems.len := by omega
    obtain ⟨L, hL, hLall⟩ := hall _ hmidlt
    obtain ⟨irr, hn, hfr⟩ := irLeafAt_inv data irItems _ L hL
    rw [hn]
    dsimp only
    rw [hfr]
    dsimp only
    have hLpos := fromIRR_ok_len_pos data irr L hfr
    obtain ⟨kf, of, hpf⟩ := hLall 0 hLpos
    rw [hpf]
    cases of with
    | eq => exact ⟨kf, ⟨_, hmidlt, L, hL, 0, hLpos, hpf⟩, rfl⟩
    | gt =>
      dsimp only
      apply ih _ _ (by omega) h0 (by omega)
      · intro a La i k ha hLa hi hpi
        have hold := hinv a La i k ha hLa hi hpi
        refine ⟨hold.1, ?_⟩
        by_contra hcon
        rcases Nat.lt_or_ge (((left + right) / 2).toNat) a with hlt | hge
        · have := hsort _ a L La 0 i kf .gt k .eq (by omega) ha hL hLa
            (Or.inl hlt) hLpos hi hpf hpi (by intro hx; cases hx)
          cases this
        · have haeq : a = ((left + right) / 2).toNat := by omega
          rw [haeq] at hLa
          rw [hLa] at hL
          simp only [Option.some.injEq, Except.ok.injEq] at hL
          subst hL
          rcases Nat.eq_zero_or_pos i with hi0' | hipos
          · subst hi0'
            rw [hpi] at hpf
            simp at hpf
          · have := hsort _ _ La La 0 i kf .gt k .eq (le_refl _)
              hmidlt hLa hLa (Or.inr hipos) (by omega) hi hpf hpi
              (by intro hx; cases hx)
            cases this
      · exact ⟨a0, ha0, L0, hL0, i0, hi0, k0, hp0⟩
    | lt =>
      dsimp only
      obtain ⟨kl, ol, hpl⟩ := hLall (L.len - 1) (by omega)
      rw [hpl]
      cases ol with
      | eq => exact ⟨kl, ⟨_, hmidlt, L, hL, L.len - 1, by omega, hpl⟩, rfl⟩
      | lt =>
        dsimp only
        apply ih _ _ (by omega) (by omega) hr
        · intro a La i k ha hLa hi hpi
          have hold := hinv a La i k ha hLa hi hpi
          refine ⟨?_, hold.2⟩
          by_contra hcon
          rcases Nat.lt_or_ge a (((left + right) / 2).toNat) with hlt | hge
          · have := hsort a _ La L i (L.len - 1) k .eq kl .lt (by omega)
              hmidlt hLa hL (Or.inl hlt) hi (by omega) hpi hpl
              (by intro hx; cases hx)
            cases this
          · have haeq : a = ((left + right) / 2).toNat := by omega
            rw [haeq] at hLa
            rw [hLa] at hL
            simp only [Option.some.injEq, Except.ok.injEq] at hL
            subst hL
            rcases Nat.lt_or_ge i (La.len - 1) with hilt | hige
            · have := hsort _ _ La La i (La.len - 1) k .eq kl .lt (le_refl _)
                hmidlt hLa hLa (Or.inr hilt) hi (by omega) hpi hpl
                (by intro hx; cases hx)
              cases this
            · have hieq : i = La.len - 1 := by omega
              subst hieq
              rw [hpi] at hpl
              simp at hpl
        · exact ⟨a0, ha0, L0, hL0, i0, hi0, k0, hp0⟩
      | gt =>
        dsimp only
        have hstar : a0 = ((left + right) / 2).toNat := by
          by_contra hne
          rcases Nat.lt_or_ge a0 (((left + right) / 2).toNat) with hlt | hge
          · have := hsort a0 _ L0 L i0 0 k0 .eq kf .lt (by omega) hmidlt
              hL0 hL (Or.inl hlt) hi0 hLpos hp0 hpf (by intro hx; cases hx)
            cases this
          · have hgt2 : ((left + right) / 2).toNat < a0 := by omega
            have := hsort _ a0 L L0 (L.len - 1) i0 kl .gt k0 .eq (by omega)
              ha0 hL hL0 (Or.inl hgt2) (by omega) hi0 hpl hp0
              (by intro hx; cases hx)
            cases this
        rw [hstar] at hL0
        rw [hL0] at hL
        simp only [Option.some.injEq, Except.ok.injEq] at hL
        subst hL
        have hLsort : LeafSorted data cmp L0 := by
          intro i j ki oi kj oj hij hj hpi hpj hoi
          exact hsort _ _ L0 L0 i j ki oi kj oj (le_refl _) hmidlt hL0 hL0
            (Or.inr hij) (by omega) hj hpi hpj hoi
        obtain ⟨k, ⟨i, hi, hpi⟩, heq⟩ :=
          binarySearchLeaf_found data cmp L0 hLall hLsort ⟨i0, hi0, k0, hp0⟩
        exact ⟨k, ⟨_, hmidlt, L0, hL0, i, hi, hpi⟩, heq⟩

/-- Claim C1: binary-search correctness of `subkey(name)`.  For a key node
whose subkeys list resolves to a container that is well formed for the
searched name (all probes resolve and the names are sorted under the
case-folding comparison `cmp`), `subkey` returns a node whose name compares
equal to the searched name whenever such a subkey exists, and returns "not
found" (`None`) — never an error — when none exists.  Both container shapes
(single Leaf, and Index Root of Leafs) are covered. -/
theorem c1_subkey_binary_search (data : List Nat)
    (cmp : NameStr → Option Ordering) (knr : KeyNodeItemRange)
    (cr : ByteRange) (kind : SubKeyNodesKind)
    (hcr : KeyNodeItemRange.subkeysCellRange data knr = some (.ok cr))
    (hnew : subKeyNodesNew data cr = .ok kind)
    (hwf : ContainerWF data cmp kind) :
    (ContainerHasMatch data cmp kind →
      ∃ k nm, KeyNodeItemRange.subkey data cmp knr = some (.ok k) ∧
        KeyNodeItemRange.name data k = .ok nm ∧ cmp nm = some .eq) ∧
    (¬ContainerHasMatch data cmp kind →
      KeyNodeItemRange.subkey data cmp knr = none) := by
  cases kind with
  | leaf items =>
    have hsub : KeyNodeItemRange.subkey data cmp knr =
        binarySearchSubkeyInLeaf data cmp items := by
      unfold KeyNodeItemRange.subkey
      rw [hcr]
      dsimp only
      rw [hnew]
    obtain ⟨hall, hsort⟩ := hwf
    constructor
    · intro hm
      obtain ⟨k, ⟨i, hi, hpi⟩, heq⟩ :=
        binarySearchLeaf_found data cmp items hall hsort hm
      obtain ⟨nm, hnm, hcmp⟩ := leafProbe_ok_name data cmp items i k .eq hpi
      exact ⟨k, nm, by rw [hsub]; exact heq, hnm, hcmp⟩
    · intro hm
      rw [hsub]
      apply binarySearchLeaf_none data cmp items hall
      intro i k hi hpi
      exact hm ⟨i, hi, k, hpi⟩
  | indexRoot irItems =>
    have hsub : KeyNodeItemRange.subkey data cmp knr =
        binarySearchSubkeyInIndexRoot data cmp irItems := by
      unfold KeyNodeItemRange.subkey
      rw [hcr]
      dsimp only
      rw [hnew]
    obtain ⟨hall, hsort⟩ := hwf
    constructor
    · intro hm
      obtain ⟨a0, ha0, L0, hL0, i0, hi0, k0, hp0⟩ := hm
      obtain ⟨k, ⟨a, ha, L, hL, i, hi, hpi⟩, heq⟩ :=
        irSearchGo_found data cmp irItems hall hsort
          (((irItems.len : Int) - 1) + 1 - 0).toNat 0
          ((irItems.len : Int) - 1) (by omega) (by omega) (by omega)
          (fun a L i k ha _ _ _ => by omega)
          ⟨a0, ha0, L0, hL0, i0, hi0, k0, hp0⟩
      obtain ⟨nm, hnm, hcmp⟩ := leafProbe_ok_name data cmp L i k .eq hpi
      refine ⟨k, nm, ?_, hnm, hcmp⟩
      rw [hsub]
      exact heq
    · intro hm
      rw [hsub]
      apply irSearchGo_none data cmp irItems hall
        (fun a L i k ha hLa hi hpi => hm ⟨a, ha, L, hLa, i, hi, k, hpi⟩)
        (((irItems.len : Int) - 1) + 1 - 0).toNat 0 ((irItems.len : Int) - 1)
        (by omega) (by omega) (by omega)

set_option maxRecDepth 20000 in
/-- Claim C1, witness: on `subkeyHive` the parent's `li` subkeys list is well
formed for the search comparator `cmpA`, the subkey named `A` exists, and
`subkey` finds it. -/
theorem c1_witness :
    ContainerHasMatch subkeyHive cmpA (.leaf ⟨96, 100, .Index⟩) ∧
      (∃ k nm, KeyNodeItemRange.subkey subkeyHive cmpA subkeyHiveParent =
          some (.ok k) ∧
        KeyNodeItemRange.name subkeyHive k = .ok nm ∧
        cmpA nm = some .eq) := by
  have hlen : LeafItemRanges.len ⟨96, 100, .Index⟩ = 1 := by decide
  have hmatch : ContainerHasMatch subkeyHive cmpA (.leaf ⟨96, 100, .Index⟩) :=
    ⟨0, by rw [hlen]; omega, ⟨⟨4, 80⟩, ⟨80, 92⟩⟩, by decide⟩
  refine ⟨hmatch, ?_⟩
  refine (c1_subkey_binary_search subkeyHive cmpA subkeyHiveParent ⟨92, 108⟩
    (.leaf ⟨96, 100, .Index⟩) (by decide) (by decide) ⟨?_, ?_⟩).1 hmatch
  · intro i hi
    rw [hlen] at hi
    have hi0 : i = 0 := by omega
    rw [hi0]
    exact ⟨⟨⟨4, 80⟩, ⟨80, 92⟩⟩, .eq, by decide⟩
  · intro i j ki oi kj oj hij hj hpi hpj hoi
    rw [hlen] at hj
    omega

/-- Claim C6, witness: the round-trip statement evaluated on `bigSegData`
with a 16345-byte value split over two segments. -/
theorem c6_witness :
    (BigDataState.collect bigSegData ⟨20, 28, 16345⟩).map segLenOf =
        segmentLens 16345 ∧
      ((BigDataState.collect bigSegData ⟨20, 28, 16345⟩).map segLenOf).sum =
        16345 ∧
      (BigDataState.collect bigSegData ⟨20, 28, 16345⟩).length =
        (16345 + 16343) / 16344 ∧
      (∀ i, i + 1 <
          (BigDataState.collect bigSegData ⟨20, 28, 16345⟩).length →
        ((BigDataState.collect bigSegData ⟨20, 28, 16345⟩).map
          segLenOf).getD i 0 = 16344) :=
  c6_big_data_round_trip bigSegData 16345 0 ⟨4, 20⟩ ⟨20, 28, 16345⟩
    bigSegData_new (by rw [bigDataSegmentSize]; omega)
    (by
      rw [bigSegData_collect]
      intro x hx
      simp only [List.mem_cons, List.not_mem_nil, or_false] at hx
      rcases hx with h | h <;> rw [h] <;> rfl)

theorem LeafType.itemSize_pos (lt : LeafType) : 0 < lt.itemSize := by
  cases lt <;> decide

theorem getD_set_out (l : List Nat) (i p v : Nat) (h : i ≠ p) :
    (l.set i v).getD p 0 = l.getD p 0 := by
  rw [List.getD_eq_getElem?_getD, List.getD_eq_getElem?_getD,
    List.getElem?_set_ne h]

theorem getD_set_self (l : List Nat) (i : Nat) :
    (l.set i 0).getD i 0 = 0 := by
  rcases Nat.lt_or_ge i l.length with h | h
  · rw [List.getD_eq_getElem?_getD, List.getElem?_set_self h]
    rfl
  · rw [List.getD_eq_getElem?_getD, List.getElem?_eq_none (by simpa using h)]
    rfl

theorem write4zero_getD_out (l : List Nat) (pos p : Nat)
    (h : p < pos ∨ pos + 4 ≤ p) :
    (write4zero l pos).getD p 0 = l.getD p 0 := by
  rw [write4zero, getD_set_out _ _ _ _ (by omega),
    getD_set_out _ _ _ _ (by omega), getD_set_out _ _ _ _ (by omega),
    getD_set_out _ _ _ _ (by omega)]

theorem write4zero_getD_in (l : List Nat) (pos p : Nat) (h1 : pos ≤ p)
    (h2 : p < pos + 4) : (write4zero l pos).getD p 0 = 0 := by
  rw [write4zero]
  rcases Nat.lt_or_ge p (pos + 1) with hp | hp
  · have hp0 : p = pos := by omega
    subst hp0
    rw [getD_set_out _ _ _ _ (by omega), getD_set_out _ _ _ _ (by omega),
      getD_set_out _ _ _ _ (by omega), getD_set_self]
  · rcases Nat.lt_or_ge p (pos + 2) with hq | hq
    · have hp0 : p = pos + 1 := by omega
      subst hp0
      rw [getD_set_out _ _ _ _ (by omega), getD_set_out _ _ _ _ (by omega),
        getD_set_self]
    · rcases Nat.lt_or_ge p (pos + 3) with hr | hr
      · have hp0 : p = pos + 2 := by omega
        subst hp0
        rw [getD_set_out _ _ _ _ (by omega), getD_set_self]
      · have hp0 : p = pos + 3 := by omega
        subst hp0
        rw [getD_set_self]

theorem clearFrameOn_nil (d : List Nat) : ClearFrameOn d d [] := by
  constructor
  · intro p _
    rfl
  · intro s hs
    simp at hs

theorem clearFrameOn_write (d : List Nat) (s : Nat) :
    ClearFrameOn d (write4zero d (s + 24)) [s] := by
  constructor
  · intro p hp
    have hp' := hp s (by simp)
    exact write4zero_getD_out d (s + 24) p (by omega)
  · intro s' hs' j hj
    have hseq : s' = s := by simpa using hs'
    rw [hseq]
    exact write4zero_getD_in d (s + 24) (s + 24 + j) (by omega) (by omega)

theorem ClearFrameOn.comp {d0 d1 d2 : List Nat} {ws1 ws2 : List Nat}
    (h1 : ClearFrameOn d0 d1 ws1) (h2 : ClearFrameOn d1 d2 ws2) :
    ClearFrameOn d0 d2 (ws1 ++ ws2) := by
  constructor
  · intro p hp
    have hp1 : ∀ s ∈ ws1, p < s + 24 ∨ s + 28 ≤ p := fun s hs =>
      hp s (List.mem_append_left _ hs)
    have hp2 : ∀ s ∈ ws2, p < s + 24 ∨ s + 28 ≤ p := fun s hs =>
      hp s (List.mem_append_right _ hs)
    rw [h2.1 p hp2, h1.1 p hp1]
  · intro s hs j hj
    rcases List.mem_append.mp hs with hs1 | hs2
    · by_cases hout : ∀ t ∈ ws2, s + 24 + j < t + 24 ∨ t + 28 ≤ s + 24 + j
      · rw [h2.1 _ hout]
        exact h1.2 s hs1 j hj
      · push_neg at hout
        obtain ⟨t, ht, ht1, ht2⟩ := hout
        have hj' : s + 24 + j = t + 24 + (s + 24 + j - (t + 24)) := by omega
        rw [hj']
        exact h2.2 t ht _ (by omega)
    · exact h2.2 s hs2 j hj

theorem clearLeafLoop_spec (fuel : Nat)
    (hnode : ∀ d hs, ClearFrameOn d (clearNode d hs fuel).1
      (clearNode d hs fuel).2.1) :
    ∀ n data pos stop lt, stop + 1 - pos ≤ n →
      ClearFrameOn data (clearLeafLoop data pos stop lt fuel).1
        (clearLeafLoop data pos stop lt fuel).2.1 := by
  intro n
  induction n with
  | zero =>
    intro data pos stop lt hn
    rw [clearLeafLoop, dif_neg (by omega)]
    exact clearFrameOn_nil data
  | succ m ih =>
    intro data pos stop lt hn
    rw [clearLeafLoop]
    by_cases hg : pos + lt.itemSize ≤ stop
    · rw [dif_pos hg]
      by_cases hs : readU32 data pos = 4294967295
      · rw [if_pos hs]
        exact clearFrameOn_nil data
      · rw [if_neg hs]
        rcases hcr : cellRangeFromDataOffset data (readU32 data pos) with
          e | cr
        · exact clearFrameOn_nil data
        · dsimp only
          rcases hk : KeyNodeItemRange.fromCellRange data cr with e | knr
          · exact clearFrameOn_nil data
          · dsimp only
            have h1 := hnode data knr.headerRange.start
            rcases hres : clearNode data knr.headerRange.start fuel with
              ⟨d2, ws, oc⟩
            rw [hres] at h1
            cases oc with
            | ok =>
              dsimp only
              have h2 := ih d2 (pos + lt.itemSize) stop lt
                (by have := LeafType.itemSize_pos lt; omega)
              rcases hres2 : clearLeafLoop d2 (pos + lt.itemSize) stop lt
                  fuel with ⟨d3, ws2, oc2⟩
              rw [hres2] at h2
              exact ClearFrameOn.comp h1 h2
            | err e => exact h1
            | panicked => exact h1
    · rw [dif_neg hg]
      exact clearFrameOn_nil data

theorem clearIRLoop_spec (fuel : Nat)
    (hleaf : ∀ d pos stop lt, ClearFrameOn d
      (clearLeafLoop d pos stop lt fuel).1
      (clearLeafLoop d pos stop lt fuel).2.1) :
    ∀ n data pos stop, stop + 1 - pos ≤ n →
      ClearFrameOn data (clearIRLoop data pos stop fuel).1
        (clearIRLoop data pos stop fuel).2.1 := by
  intro n
  induction n with
  | zero =>
    intro data pos stop hn
    rw [clearIRLoop, dif_neg (by omega)]
    exact clearFrameOn_nil data
  | succ m ih =>
    intro data pos stop hn
    rw [clearIRLoop]
    by_cases hg : pos + 4 ≤ stop
    · rw [dif_pos hg]
      by_cases hs : readU32 data pos = 4294967295
      · rw [if_pos hs]
        exact clearFrameOn_nil data
      · rw [if_neg hs]
        rcases hcr : cellRangeFromDataOffset data (readU32 data pos) with
          e | cr
        · exact clearFrameOn_nil data
        · dsimp only
          by_cases hh : cr.stop < cr.start + 4
          · rw [if_pos hh]
            exact clearFrameOn_nil data
          · rw [if_neg hh]
            rcases hsig : LeafType.fromSignature
                (twoByteSignature data cr.start) with _ | lt2
            · exact clearFrameOn_nil data
            · dsimp only
              rcases hlir : LeafItemRanges.new (readU16 data (cr.start + 2))
                  (baseBlockSize + cr.start + 2) ⟨cr.start + 4, cr.stop⟩
                  lt2 with e | items
              · exact clearFrameOn_nil data
              · dsimp only
                have h1 := hleaf data items.itemsStart items.itemsStop
                  items.leafType
                rcases hres : clearLeafLoop data items.itemsStart
                    items.itemsStop items.leafType fuel with ⟨d2, ws, oc⟩
                rw [hres] at h1
                cases oc with
                | ok =>
                  dsimp only
                  have h2 := ih d2 (pos + 4) stop (by omega)
                  rcases hres2 : clearIRLoop d2 (pos + 4) stop fuel with
                    ⟨d3, ws2, oc2⟩
                  rw [hres2] at h2
                  exact ClearFrameOn.comp h1 h2
                | err e => exact h1
                | panicked => exact h1
    · rw [dif_neg hg]
      exact clearFrameOn_nil data

theorem clearNode_spec (fuel : Nat) :
    ∀ data hdrStart, ClearFrameOn data (clearNode data hdrStart fuel).1
      (clearNode data hdrStart fuel).2.1 := by
  induction fuel with
  | zero =>
    intro data hdrStart
    rw [clearNode, dif_pos rfl]
    exact clearFrameOn_nil data
  | succ f ihf =>
    have hleaf : ∀ d pos stop lt, ClearFrameOn d
        (clearLeafLoop d pos stop lt f).1
        (clearLeafLoop d pos stop lt f).2.1 :=
      fun d pos stop lt =>
        clearLeafLoop_spec f ihf (stop + 1 - pos) d pos stop lt le_rfl
    have hir : ∀ d pos stop, ClearFrameOn d (clearIRLoop d pos stop f).1
        (clearIRLoop d pos stop f).2.1 :=
      fun d pos stop =>
        clearIRLoop_spec f hleaf (stop + 1 - pos) d pos stop le_rfl
    intro data hdrStart
    rw [clearNode, dif_neg (Nat.succ_ne_zero f)]
    simp only [Nat.add_sub_cancel]
    by_cases hsent : readU32 (write4zero data (hdrStart + 24))
        (hdrStart + 28) = 4294967295
    · rw [if_pos hsent]
      exact clearFrameOn_write data hdrStart
    · rw [if_neg hsent]
      rcases hcr : cellRangeFromDataOffset (write4zero data (hdrStart + 24))
          (readU32 (write4zero data (hdrStart + 24)) (hdrStart + 28)) with
        e | cr
      · exact clearFrameOn_write data hdrStart
      · dsimp only
        rcases hsk : subKeyNodesNew (write4zero data (hdrStart + 24)) cr with
          e | kind
        · exact clearFrameOn_write data hdrStart
        · cases kind with
          | leaf items =>
            dsimp only
            have h2 := hleaf (write4zero data (hdrStart + 24))
              items.itemsStart items.itemsStop items.leafType
            rcases hres : clearLeafLoop (write4zero data (hdrStart + 24))
                items.itemsStart items.itemsStop items.leafType f with
              ⟨d2, ws, oc⟩
            rw [hres] at h2
            dsimp only
            exact ClearFrameOn.comp (clearFrameOn_write data hdrStart) h2
          | indexRoot items =>
            dsimp only
            have h2 := hir (write4zero data (hdrStart + 24))
              items.itemsStart items.itemsStop
            rcases hres : clearIRLoop (write4zero data (hdrStart + 24))
                items.itemsStart items.itemsStop f with ⟨d2, ws, oc⟩
            rw [hres] at h2
            dsimp only
            exact ClearFrameOn.comp (clearFrameOn_write data hdrStart) h2

/-- Claim C8: `clear_volatile_subkeys` only ever writes the 4-byte
`volatile_subkey_count` fields (header offset 24) of the `nk` records it
visits during the pre-order traversal from the root: whatever the outcome
(success, returned error, or abort), every byte of the cell area outside
those fields is unchanged — and the base block, a separate field of `Hive`
that the traversal never writes, trivially so — while every written field
reads back as zero. -/
theorem c8_clear_volatile_frame (h : Hive) (fuel : Nat) :
    (∀ p, (∀ s ∈ (Hive.clearVolatileSubkeys h fuel).2.1,
        p < s + 24 ∨ s + 28 ≤ p) →
      (Hive.clearVolatileSubkeys h fuel).1.getD p 0 = h.data.getD p 0) ∧
    (∀ s ∈ (Hive.clearVolatileSubkeys h fuel).2.1, ∀ j, j < 4 →
      (Hive.clearVolatileSubkeys h fuel).1.getD (s + 24 + j) 0 = 0) := by
  have hmain : ClearFrameOn h.data (Hive.clearVolatileSubkeys h fuel).1
      (Hive.clearVolatileSubkeys h fuel).2.1 := by
    rw [Hive.clearVolatileSubkeys]
    by_cases hs : readU32 h.baseBlock 36 = 4294967295
    · rw [if_pos hs]
      exact clearFrameOn_nil h.data
    · rw [if_neg hs]
      rcases hcr : cellRangeFromDataOffset h.data
          (readU32 h.baseBlock 36) with e | cr
      · exact clearFrameOn_nil h.data
      · dsimp only
        rcases hk : KeyNodeItemRange.fromCellRange h.data cr with e | knr
        · exact clearFrameOn_nil h.data
        · exact clearNode_spec fuel h.data knr.headerRange.start
  exact hmain

set_option maxRecDepth 20000 in
theorem clearHive_run :
    Hive.clearVolatileSubkeys ⟨clearHiveBB, clearHiveData⟩ 2 =
      (clearHiveData2, [108, 4], .ok) := by
  rw [Hive.clearVolatileSubkeys, if_neg (by decide)]
  dsimp only
  rw [show cellRangeFromDataOffset clearHiveData (readU32 clearHiveBB 36) =
    Except.ok (⟨108, 196⟩ : ByteRange) from by decide]
  dsimp only
  rw [show KeyNodeItemRange.fromCellRange clearHiveData ⟨108, 196⟩ =
    Except.ok (⟨⟨108, 184⟩, ⟨184, 196⟩⟩ : KeyNodeItemRange) from by decide]
  dsimp only
  rw [clearNode, dif_neg (by decide)]
  rw [show write4zero clearHiveData (108 + 24) = clearHiveData1 from
    by decide]
  rw [if_neg (by decide)]
  rw [show cellRangeFromDataOffset clearHiveData1
      (readU32 clearHiveData1 (108 + 28)) =
    Except.ok (⟨92, 108⟩ : ByteRange) from by decide]
  dsimp only
  rw [show subKeyNodesNew clearHiveData1 ⟨92, 108⟩ =
    Except.ok (SubKeyNodesKind.leaf ⟨96, 100, LeafType.Index⟩) from
    by decide]
  dsimp only
  rw [show (2 : Nat) - 1 = 1 from by decide]
  rw [clearLeafLoop, dif_pos (by decide)]
  rw [if_neg (by decide)]
  rw [show cellRangeFromDataOffset clearHiveData1
      (readU32 clearHiveData1 96) =
    Except.ok (⟨4, 92⟩ : ByteRange) from by decide]
  dsimp only
  rw [show KeyNodeItemRange.fromCellRange clearHiveData1 ⟨4, 92⟩ =
    Except.ok (⟨⟨4, 80⟩, ⟨80, 92⟩⟩ : KeyNodeItemRange) from by decide]
  dsimp only
  rw [clearNode, dif_neg (by decide)]
  rw [show write4zero clearHiveData1 (4 + 24) = clearHiveData2 from
    by decide]
  rw [if_pos (by decide)]
  dsimp only
  rw [clearLeafLoop, dif_neg (by decide)]
  rfl

set_option maxRecDepth 20000 in
/-- Claim C8, witness: on the concrete two-node hive `clearHiveData` the
traversal succeeds after visiting the root node (header start 108) and its
single subkey (header start 4); byte 0 (a cell size field) is unchanged and
the root's volatile-subkey-count byte 132 reads back as zero. -/
theorem c8_witness :
    (Hive.clearVolatileSubkeys ⟨clearHiveBB, clearHiveData⟩ 2).1.getD 0 0 =
        clearHiveData.getD 0 0 ∧
      (Hive.clearVolatileSubkeys ⟨clearHiveBB, clearHiveData⟩ 2).1.getD
        132 0 = 0 := by
  have h := c8_clear_volatile_frame ⟨clearHiveBB, clearHiveData⟩ 2
  constructor
  · exact h.1 0 (by rw [clearHive_run]; decide)
  · have h2 := h.2 108 (by rw [clearHive_run]; decide) 0 (by decide)
    simpa using h2

end NtHive
